import Mathlib

/-!
Verification of the Unity scene/prefab extraction engine (rust-core scanner).

The Rust scanner operates on Unity YAML documents: multi-document text where
each object block starts with a header line of the form
"--- !u!CLASS &FILEID[ stripped]" followed by a type-name line and indented
key/value lines.  We embed a document as a list of classified lines
(one constructor per line shape that the scanner's regexes distinguish), and
translate each scanner function from rust-core/src/scanner into a Lean
function over that model.  Raw-string-level behaviour (property extraction,
GUID resolution in values) is embedded over genuine strings.

Scores, which the Rust code computes in f64 over exact small integers, are
modelled as rationals.
-/

namespace UnityScan

/-- One classified line of a Unity YAML document.  Each constructor mirrors a
concrete line shape recognised by a regex in the Rust scanner:
- header c f s : "--- !u!c &f" with the optional " stripped" marker (s);
- typeLine n : the type-name line "n:" directly after a header;
- nameLine v : "  m_Name: v";
- isActiveLine d : "  m_IsActive: d" (d the single captured digit);
- tagLine v : "  m_TagString: v";
- layerLine n : "  m_Layer: n";
- compRefLine f : "  - component: {fileID: f}";
- fatherLine f : "  m_Father: {fileID: f}";
- childrenLine ids : an "m_Children:" bracketed section listing ids;
- scriptLine g : "  m_Script: {fileID: _, guid: g, ...}";
- targetLine f g : "    - target: {fileID: f, guid: g, ...}";
- pathLine p : "      propertyPath: p";
- valueLine v : "      value: v";
- objRefLine : "      objectReference: {fileID: 0}";
- sourcePrefabLine g : "  m_SourcePrefab: {fileID: _, guid: g, ...}";
- otherLine : any other line. -/
inductive Line where
  | header (classId : Nat) (fileId : String) (stripped : Bool)
  | typeLine (name : String)
  | nameLine (value : String)
  | isActiveLine (digit : Nat)
  | tagLine (value : String)
  | layerLine (value : Nat)
  | compRefLine (fileId : String)
  | fatherLine (fileId : String)
  | childrenLine (ids : List String)
  | scriptLine (guid : String)
  | targetLine (fileId : String) (guid : Option String)
  | pathLine (path : String)
  | valueLine (value : String)
  | objRefLine
  | sourcePrefabLine (guid : String)
  | otherLine
  deriving DecidableEq, Repr

/-- Whitespace as matched by Rust trimming and the regex \s class on this
ASCII data. -/
def isRustSpace (c : Char) : Bool :=
  c = ' ' || c = '\t' || c = '\n' || c = '\r' || c = '\x0b' || c = '\x0c'

/-- Whether s starts with pre (Rust str::starts_with). -/
def strStartsWith (s pre : String) : Bool :=
  pre.data.isPrefixOf s.data

/-- Rust str::trim: strip leading and trailing whitespace. -/
def strTrim (s : String) : String :=
  String.mk (((s.data.dropWhile isRustSpace).reverse.dropWhile isRustSpace).reverse)

/-- Whether a string contains a character (Rust str::contains with a char
needle). -/
def charContains (s : String) (c : Char) : Bool :=
  s.data.contains c

/-- Split a character list on a separator character. -/
def splitOnChar (sep : Char) : List Char → List (List Char)
  | [] => [[]]
  | c :: t =>
    if c = sep then [] :: splitOnChar sep t
    else
      match splitOnChar sep t with
      | h :: rest => (c :: h) :: rest
      | [] => [[c]]

/-- Basic GameObject record (common/types.rs, struct GameObject).  The f64
match score is modelled as a rational. -/
structure GameObject where
  name : String
  file_id : String
  active : Bool
  match_score : Option ℚ
  deriving DecidableEq, Repr

/-- Component parsing configuration (scanner/config.rs, ComponentConfig).
The parent/children/script field names of the Rust struct are baked into the
line constructors of the model, so only the class-id policy is carried. -/
structure ComponentConfig where
  hierarchy_providers : List Nat
  script_containers : List Nat
  gameobject_class_id : Nat
  deriving DecidableEq, Repr

/-- Default configuration: Transform (4) and RectTransform (224) as hierarchy
providers, MonoBehaviour (114) as script container, GameObject class id 1. -/
def ComponentConfig.default : ComponentConfig :=
  { hierarchy_providers := [4, 224]
    script_containers := [114]
    gameobject_class_id := 1 }

/-- Whether a line is a block header. -/
def isHeader : Line → Bool
  | Line.header _ _ _ => true
  | _ => false

/-- Scan forward for the first "m_Name:" match, returning the captured value
and the remaining lines after it (the lazy ".*?m_Name:" step of the
GameObject regex in parser.rs, which may cross block boundaries). -/
def scanName : List Line → Option (String × List Line)
  | [] => none
  | Line.nameLine v :: rest => some (v, rest)
  | _ :: rest => scanName rest

/-- Scan forward for the first "m_IsActive:" match, returning the captured
digit and the remaining lines after it. -/
def scanActive : List Line → Option (Nat × List Line)
  | [] => none
  | Line.isActiveLine d :: rest => some (d, rest)
  | _ :: rest => scanActive rest

theorem scanName_length_lt : ∀ {l : List Line} {v rest},
    scanName l = some (v, rest) → rest.length < l.length := by
  intro l
  induction l with
  | nil => intro v rest h; simp [scanName] at h
  | cons a t ih =>
    intro v rest h
    cases a <;> simp only [scanName] at h <;>
      first
        | (cases h with | refl => simp)
        | exact Nat.lt_succ_of_lt (ih h)

theorem scanActive_length_lt : ∀ {l : List Line} {d rest},
    scanActive l = some (d, rest) → rest.length < l.length := by
  intro l
  induction l with
  | nil => intro d rest h; simp [scanActive] at h
  | cons a t ih =>
    intro d rest h
    cases a <;> simp only [scanActive] at h <;>
      first
        | (cases h with | refl => simp)
        | exact Nat.lt_succ_of_lt (ih h)

theorem scanName_suffix : ∀ {l : List Line} {v rest},
    scanName l = some (v, rest) → rest <:+ l := by
  intro l
  induction l with
  | nil => intro v rest h; simp [scanName] at h
  | cons a t ih =>
    intro v rest h
    cases a <;> simp only [scanName] at h <;>
      first
        | (cases h with | refl => exact List.suffix_cons _ _)
        | exact (ih h).trans (List.suffix_cons _ _)

theorem scanActive_suffix : ∀ {l : List Line} {d rest},
    scanActive l = some (d, rest) → rest <:+ l := by
  intro l
  induction l with
  | nil => intro d rest h; simp [scanActive] at h
  | cons a t ih =>
    intro d rest h
    cases a <;> simp only [scanActive] at h <;>
      first
        | (cases h with | refl => exact List.suffix_cons _ _)
        | exact (ih h).trans (List.suffix_cons _ _)

/-- The body step of the GameObject regex after the header and type line:
lazily find the first m_Name capture, then the first m_IsActive capture
after it, returning both and the lines after the match (where scanning
resumes). -/
def matchGo (rest : List Line) : Option (String × Nat × List Line) :=
  match scanName rest with
  | none => none
  | some (v, r1) =>
    match scanActive r1 with
    | none => none
    | some (d, r2) => some (v, d, r2)

theorem matchGo_length_lt {rest : List Line} {v d r2}
    (h : matchGo rest = some (v, d, r2)) : r2.length < rest.length := by
  rw [matchGo] at h
  cases hsn : scanName rest with
  | none => rw [hsn] at h; exact Option.noConfusion h
  | some vr =>
    obtain ⟨v1, r1⟩ := vr
    rw [hsn] at h
    simp only [] at h
    cases hsa : scanActive r1 with
    | none => rw [hsa] at h; exact Option.noConfusion h
    | some dr =>
      obtain ⟨d1, r3⟩ := dr
      rw [hsa] at h
      injection h with h2
      injection h2 with ha hb
      injection hb with hc hd
      subst hd
      exact Nat.lt_trans (scanActive_length_lt hsa) (scanName_length_lt hsn)

theorem matchGo_suffix {rest : List Line} {v d r2}
    (h : matchGo rest = some (v, d, r2)) : r2 <:+ rest := by
  rw [matchGo] at h
  cases hsn : scanName rest with
  | none => rw [hsn] at h; exact Option.noConfusion h
  | some vr =>
    obtain ⟨v1, r1⟩ := vr
    rw [hsn] at h
    simp only [] at h
    cases hsa : scanActive r1 with
    | none => rw [hsa] at h; exact Option.noConfusion h
    | some dr =>
      obtain ⟨d1, r3⟩ := dr
      rw [hsa] at h
      injection h with h2
      injection h2 with ha hb
      injection hb with hc hd
      subst hd
      exact (scanActive_suffix hsa).trans (scanName_suffix hsn)

/-- Translation of UnityYamlParser::extract_gameobjects_with_config
(scanner/parser.rs), by fuel recursion.  The Rust regex, in DOTALL mode with
non-overlapping leftmost matching, requires a non-stripped header of the
configured GameObject class immediately followed by the "GameObject:" type
line, then matches the body via matchGo (possibly across later block
headers); scanning resumes after the matched m_IsActive digit.  Every
recursive call consumes at least one line, so fuel equal to the document
length (supplied by extractGameobjectsWith below) never runs out. -/
def extractGosFuel (goClass : Nat) : Nat → List Line → List GameObject
  | 0, _ => []
  | _, [] => []
  | fuel + 1, l :: rest =>
    match l with
    | Line.header c fid false =>
      if c = goClass ∧ rest.head? = some (Line.typeLine "GameObject") then
        match matchGo rest with
        | some (v, d, r2) =>
          { name := strTrim v, file_id := fid, active := d = 1, match_score := none }
            :: extractGosFuel goClass fuel r2
        | none => extractGosFuel goClass fuel rest
      else extractGosFuel goClass fuel rest
    | _ => extractGosFuel goClass fuel rest

/-- Translation of UnityYamlParser::extract_gameobjects_with_config
(scanner/parser.rs): the fuel recursion started with sufficient fuel. -/
def extractGameobjectsWith (goClass : Nat) (doc : List Line) : List GameObject :=
  extractGosFuel goClass doc.length doc

/-- Translation of UnityYamlParser::extract_gameobjects (scanner/parser.rs):
the config-free entry point with the default GameObject class id 1. -/
def extractGameobjects (doc : List Line) : List GameObject :=
  extractGameobjectsWith ComponentConfig.default.gameobject_class_id doc

/-- One entry of the all-blocks listing produced by parse_all_blocks:
class id, file id, and block body (the lines between this header and the
next).  The Rust function returns these as a tuple and does not record the
stripped marker. -/
structure RawBlock where
  classId : Nat
  fileId : String
  body : List Line
  deriving DecidableEq, Repr

/-- Translation of UnityYamlParser::parse_all_blocks (scanner/parser.rs).
Every header line, stripped or not and of any class, opens a block whose
body runs to the next header (or end of document); content before the first
header belongs to no block. -/
def parseAllBlocks : List Line → List RawBlock
  | [] => []
  | Line.header c f _ :: rest =>
    ⟨c, f, rest.takeWhile (fun x => !isHeader x)⟩
      :: parseAllBlocks (rest.dropWhile (fun x => !isHeader x))
  | _ :: rest => parseAllBlocks rest
  termination_by l => l.length
  decreasing_by
    all_goals simp_wf
    · exact Nat.lt_succ_of_le (List.dropWhile_sublist _).length_le

/-- Modelled from the spec: the Block Index type (scanner/parser.rs declares
only its callers; BlockIndex itself is absent from the sources).  Spec §4.1:
a one-pass scan producing a mapping from object identifier to (type
identifier, body span); stripped blocks are retained; per §9, duplicate
identifiers resolve by last write wins (map insertion).  This is the
BlockIndex::get lookup. -/
def blockIndexGet (doc : List Line) (fid : String) : Option (Nat × List Line) :=
  (((parseAllBlocks doc).reverse).find? (fun b => b.fileId == fid)).map
    (fun b => (b.classId, b.body))

/-- Modelled from the spec: BlockIndex::get_by_class_and_id — the indexed
lookup restricted to a class, as used by the scanner's callers. -/
def blockIndexGetByClass (doc : List Line) (c : Nat) (fid : String) : Option (List Line) :=
  match blockIndexGet doc fid with
  | some (c', b) => if c' = c then some b else none
  | none => none

/-- Translation of extract_tag (scanner/gameobject.rs): the first
m_TagString capture of the block, trimmed, defaulting to "Untagged". -/
def extractTagL (block : List Line) : String :=
  match block.findSome? (fun l => match l with | Line.tagLine v => some v | _ => none) with
  | some v => strTrim v
  | none => "Untagged"

/-- Translation of extract_layer (scanner/gameobject.rs): the first m_Layer
capture, defaulting to 0. -/
def extractLayerL (block : List Line) : Nat :=
  (block.findSome? (fun l => match l with | Line.layerLine n => some n | _ => none)).getD 0

/-- Translation of extract_parent_from_transform (scanner/gameobject.rs):
the first m_Father fileID, with "0" meaning no parent. -/
def extractParentFromTransform (block : List Line) : Option String :=
  (block.findSome? (fun l => match l with | Line.fatherLine f => some f | _ => none)).filter
    (fun s => s ≠ "0")

/-- Translation of extract_children_from_transform (scanner/gameobject.rs):
the fileIDs of the m_Children section, filtering zero entries. -/
def extractChildrenFromTransform (block : List Line) : List String :=
  match block.findSome? (fun l => match l with | Line.childrenLine ids => some ids | _ => none) with
  | some ids => ids.filter (fun s => s ≠ "0")
  | none => []

/-- Component reference fileIDs of a GameObject block, in order
(the COMP_REF_RE captures of scanner/gameobject.rs and parser.rs). -/
def compRefs (block : List Line) : List String :=
  block.filterMap (fun l => match l with | Line.compRefLine f => some f | _ => none)

/-- Translation of extract_hierarchy_indexed (scanner/gameobject.rs): the
first component reference resolving to a hierarchy-provider class supplies
parent and children. -/
def extractHierarchyIndexed (doc : List Line) (goBlock : List Line)
    (cfg : ComponentConfig) : Option String × List String :=
  match (compRefs goBlock).findSome? (fun r =>
      match blockIndexGet doc r with
      | some (c, b) => if c ∈ cfg.hierarchy_providers then some b else none
      | none => none) with
  | some b => (extractParentFromTransform b, extractChildrenFromTransform b)
  | none => (none, [])

/-- Translation of extract_metadata_indexed (scanner/gameobject.rs). -/
def extractMetadataIndexed (doc : List Line) (fid : String) (cfg : ComponentConfig) :
    String × Nat × Option String × List String :=
  match blockIndexGetByClass doc cfg.gameobject_class_id fid with
  | none => ("Untagged", 0, none, [])
  | some b =>
    let pc := extractHierarchyIndexed doc b cfg
    (extractTagL b, extractLayerL b, pc.1, pc.2)

/-- Component record (common/types.rs, struct Component); the property map
is a key/value list in document order. -/
structure Component where
  type_name : String
  class_id : Nat
  file_id : String
  script_path : Option String
  script_guid : Option String
  script_name : Option String
  properties : Option (List (String × String))
  deriving DecidableEq, Repr

/-- Exact-match GUID cache lookup (the scanner's guid_cache HashMap). -/
def cacheFind (cache : List (String × String)) (g : String) : Option String :=
  (cache.find? (fun e => e.1 == g)).map (fun e => e.2)

/-- File name of a path: the segment after the last separator. -/
def fileNameOf (p : String) : String :=
  String.mk (((splitOnChar '/' p.data).getLast?).getD p.data)

/-- File stem per Rust Path::file_stem: the whole name when it has no
embedded dot, or begins with a dot and has no other; otherwise the portion
before the final dot. -/
def fileStem (name : String) : String :=
  let parts := splitOnChar '.' name.data
  if parts.length ≤ 1 then name
  else if name.data.head? = some '.' ∧ parts.length = 2 then name
  else String.mk (List.intercalate ['.'] parts.dropLast)

/-- Type name of a block body: the type-name line directly after the header
(the first capitalized identifier that the component regex captures). -/
def bodyTypeName (body : List Line) : Option String :=
  match body with
  | Line.typeLine n :: _ => some n
  | _ => none

/-- Structured-model property view of a block body, with the recognised
key/value lines in document order.  Modelled from the spec (§4.5): the
indexed component extractor is absent from the sources; raw-string property
extraction (component.rs) is embedded separately below for its own claims. -/
def structuredProps (body : List Line) : List (String × String) :=
  body.filterMap (fun l => match l with
    | Line.nameLine v => some ("Name", strTrim v)
    | Line.isActiveLine d => some ("IsActive", toString d)
    | Line.tagLine v => some ("TagString", strTrim v)
    | Line.layerLine n => some ("Layer", toString n)
    | Line.fatherLine f => some ("Father", f)
    | Line.scriptLine g => some ("Script", g)
    | Line.sourcePrefabLine g => some ("SourcePrefab", g)
    | _ => none)

/-- Modelled from the spec: extract_components_indexed (scanner/component.rs
declares only the non-indexed variant; the indexed one is absent from the
sources).  It mirrors extract_single_component_with_config with BlockIndex
lookups: resolve the reference, read the declared type name, and for script
containers resolve the script GUID to a path and a derived short name. -/
def extractSingleComponentIndexed (doc : List Line) (fid : String)
    (cache : List (String × String)) (cfg : ComponentConfig) : Option Component :=
  match blockIndexGet doc fid with
  | none => none
  | some (classId, body) =>
    match bodyTypeName body with
    | none => none
    | some tn =>
      let sg : Option String :=
        if classId ∈ cfg.script_containers then
          body.findSome? (fun l => match l with | Line.scriptLine g => some g | _ => none)
        else none
      let sp := sg.bind (cacheFind cache)
      let sn := sp.map (fun p => fileStem (fileNameOf p))
      some { type_name := tn, class_id := classId, file_id := fid,
             script_path := sp, script_guid := sg, script_name := sn,
             properties := some (structuredProps body) }

/-- Modelled from the spec: extract_components_indexed — expand a
GameObject's component reference list into component records, dropping
unresolvable references. -/
def extractComponentsIndexed (doc : List Line) (fid : String)
    (cache : List (String × String)) (cfg : ComponentConfig) : List Component :=
  match blockIndexGetByClass doc cfg.gameobject_class_id fid with
  | none => []
  | some goBlock =>
    (compRefs goBlock).filterMap (fun r => extractSingleComponentIndexed doc r cache cfg)

/-- GameObject detail record (common/types.rs, struct GameObjectDetail). -/
structure GameObjectDetail where
  name : String
  file_id : String
  active : Bool
  tag : String
  layer : Nat
  depth : Option Nat
  components : List Component
  children : Option (List String)
  parent_transform_id : Option String
  deriving DecidableEq, Repr

/-- Translation of Scanner::extract_gameobject_details_indexed
(scanner/mod.rs). -/
def extractGameobjectDetailsIndexed (doc : List Line) (obj : GameObject)
    (components : List Component) (cfg : ComponentConfig) : GameObjectDetail :=
  let m := extractMetadataIndexed doc obj.file_id cfg
  { name := obj.name, file_id := obj.file_id, active := obj.active,
    tag := m.1, layer := m.2.1, depth := none, components := components,
    children := if m.2.2.2.isEmpty then none else some m.2.2.2,
    parent_transform_id := m.2.2.1 }

/-- A single property override of a PrefabInstance (common/types.rs,
struct PrefabModification). -/
structure PrefabModification where
  target_file_id : String
  target_guid : Option String
  property_path : String
  value : String
  deriving DecidableEq, Repr

/-- PrefabInstance summary (common/types.rs, struct PrefabInstanceInfo). -/
structure PrefabInstanceInfo where
  name : String
  file_id : String
  source_guid : String
  source_prefab : Option String
  modifications_count : Nat
  deriving DecidableEq, Repr

/-- Translation of extract_prefab_block (scanner/prefab.rs): the substring
search for "--- !u!1001 &fid" locates the first PrefabInstance header whose
file id extends fid (the pattern has no terminator after the id), and the
block body runs to the next header. -/
def extractPrefabBlock : List Line → String → Option (List Line)
  | [], _ => none
  | Line.header c f _ :: rest, fid =>
    if c = 1001 ∧ strStartsWith f fid then some (rest.takeWhile (fun x => !isHeader x))
    else extractPrefabBlock rest fid
  | _ :: rest, fid => extractPrefabBlock rest fid

/-- Translation of extract_name_from_modifications (scanner/prefab.rs): scan
for a line containing "propertyPath: m_Name" (in the line model, a
propertyPath line whose path starts with "m_Name"); if the next line's
"value:" capture trims to a non-empty string, that is the display name,
otherwise the scan continues from the next line. -/
def extractNameFromMods : List Line → Option String
  | [] => none
  | Line.pathLine p :: rest =>
    if strStartsWith p "m_Name" then
      match rest with
      | Line.valueLine v :: _ =>
        if strTrim v ≠ "" then some (strTrim v) else extractNameFromMods rest
      | _ => extractNameFromMods rest
    else extractNameFromMods rest
  | _ :: rest => extractNameFromMods rest

/-- Translation of extract_source_guid (scanner/prefab.rs). -/
def extractSourceGuid (block : List Line) : Option String :=
  block.findSome? (fun l => match l with | Line.sourcePrefabLine g => some g | _ => none)

/-- Translation of count_modifications (scanner/prefab.rs): the number of
"- target:" lines. -/
def countModifications (block : List Line) : Nat :=
  block.countP (fun l => match l with | Line.targetLine _ _ => true | _ => false)

/-- The look-ahead of extract_modifications (scanner/prefab.rs): walk up to
four lines after a target line, recording the last propertyPath and value
captures (trimmed), stopping early at a further target line (the break
applies only past the first look-ahead position, tracked by k). -/
def scanWindow : List Line → Nat → String → String → String × String
  | [], _, p, v => (p, v)
  | l :: rest, k, p, v =>
    match l with
    | Line.pathLine pp => scanWindow rest (k + 1) (strTrim pp) v
    | Line.valueLine vv => scanWindow rest (k + 1) p (strTrim vv)
    | Line.targetLine _ _ =>
      if k > 0 then (p, v) else scanWindow rest (k + 1) p v
    | _ => scanWindow rest (k + 1) p v

/-- Translation of extract_modifications (scanner/prefab.rs): each
"- target:" line yields one modification, with propertyPath and value read
from the following window of at most four lines. -/
def extractModifications : List Line → List PrefabModification
  | [] => []
  | Line.targetLine f g :: rest =>
    let pv := scanWindow (rest.take 4) 0 "" ""
    ⟨f, g, pv.1, pv.2⟩ :: extractModifications rest
  | _ :: rest => extractModifications rest

/-- The PrefabInstance header ids matched by the header regex of
extract_prefab_instances (scanner/prefab.rs): class 1001, not stripped
(the pattern requires the newline right after the id digits). -/
def prefabHeaderIds (doc : List Line) : List String :=
  doc.filterMap (fun l => match l with
    | Line.header c f s => if c = 1001 ∧ s = false then some f else none
    | _ => none)

/-- Translation of extract_prefab_instances (scanner/prefab.rs). -/
def extractPrefabInstances (doc : List Line) (cache : List (String × String)) :
    List PrefabInstanceInfo :=
  (prefabHeaderIds doc).filterMap (fun fid =>
    (extractPrefabBlock doc fid).map (fun block =>
      let sg := (extractSourceGuid block).getD ""
      { name := (extractNameFromMods block).getD "<unnamed>"
        file_id := fid
        source_guid := sg
        source_prefab := cacheFind cache sg
        modifications_count := countModifications block }))

/-- ASCII lower-casing of one character (the effect of Rust to_lowercase on
the scanner's ASCII name data). -/
def lowerChar (c : Char) : Char :=
  if 'A' ≤ c ∧ c ≤ 'Z' then Char.ofNat (c.toNat + 32) else c

/-- Lower-case a string character-wise. -/
def lowerStr (s : String) : String :=
  String.mk (s.data.map lowerChar)

/-- Substring containment on character lists (Rust str::contains with a
string needle). -/
def listContainsSub (pat : List Char) : List Char → Bool
  | [] => pat.isEmpty
  | hay@(_ :: t) => pat.isPrefixOf hay || listContainsSub pat t

/-- Substring containment on strings. -/
def strContainsSub (hay pat : String) : Bool :=
  listContainsSub pat.data hay.data

/-- Whether a pattern contains glob metacharacters (glob_to_regex of
scanner/mod.rs returns None exactly when it does not). -/
def hasGlobChars (pattern : String) : Bool :=
  charContains pattern '*' || charContains pattern '?'

/-- Case-insensitive anchored glob matching over character lists: the
semantics of the regex produced by glob_to_regex (scanner/mod.rs), where *
becomes .*, ? becomes ., and every other pattern character is escaped to a
literal under (?i). -/
def globMatchL : List Char → List Char → Bool
  | [], [] => true
  | [], _ :: _ => false
  | '*' :: ps, s =>
    globMatchL ps s ||
      (match s with
       | [] => false
       | _ :: t => globMatchL ('*' :: ps) t)
  | '?' :: ps, s =>
    match s with
    | [] => false
    | _ :: t => globMatchL ps t
  | p :: ps, s =>
    match s with
    | [] => false
    | c :: t => (lowerChar p == lowerChar c) && globMatchL ps t
  termination_by p s => (p.length, s.length)

/-- Glob matching on strings. -/
def globMatch (pattern name : String) : Bool :=
  globMatchL pattern.data name.data

/-- Translation of calculate_fuzzy_score (scanner/mod.rs), with the f64
scores represented as exact rationals. -/
def calculateFuzzyScore (pattern text : String) : ℚ :=
  if pattern = text then 100
  else if strStartsWith text pattern then 85
  else if strContainsSub text pattern then 70
  else if pattern = "" then 0
  else ((pattern.data.filter (fun c => charContains text c)).length : ℚ) / (pattern.length : ℚ) * 50

/-- Union search result (common/types.rs, struct FindResult). -/
structure FindResult where
  name : String
  file_id : String
  result_type : String
  active : Option Bool
  match_score : Option ℚ
  source_guid : Option String
  source_prefab : Option String
  modifications_count : Option Nat
  deriving DecidableEq, Repr

/-- Translation of FindResult::from_game_object (common/types.rs). -/
def FindResult.fromGameObject (go : GameObject) (score : Option ℚ) : FindResult :=
  { name := go.name, file_id := go.file_id, result_type := "GameObject",
    active := some go.active, match_score := score,
    source_guid := none, source_prefab := none, modifications_count := none }

/-- Translation of FindResult::from_prefab_instance (common/types.rs). -/
def FindResult.fromPrefabInstance (pi : PrefabInstanceInfo) (score : Option ℚ) : FindResult :=
  { name := pi.name, file_id := pi.file_id, result_type := "PrefabInstance",
    active := none, match_score := score,
    source_guid := some pi.source_guid, source_prefab := pi.source_prefab,
    modifications_count := some pi.modifications_count }

/-- Descending order on match scores, with absent scores counting as 0: the
comparator of the sort_by call in find_by_name (scanner/mod.rs). -/
def scoreGe (a b : FindResult) : Prop :=
  b.match_score.getD 0 ≤ a.match_score.getD 0

instance : DecidableRel scoreGe :=
  fun a b => inferInstanceAs (Decidable (b.match_score.getD 0 ≤ a.match_score.getD 0))

instance : IsTotal FindResult scoreGe :=
  ⟨fun a b => le_total (b.match_score.getD 0) (a.match_score.getD 0)⟩

instance : IsTrans FindResult scoreGe :=
  ⟨fun _ _ _ h1 h2 => le_trans h2 h1⟩

/-- Translation of Scanner::find_by_name (scanner/mod.rs), over an already
read document.  In fuzzy mode, glob patterns match with a fixed score of 80;
otherwise lower-cased substring containment filters candidates and
calculate_fuzzy_score scores them; results are stably sorted by descending
score.  In non-fuzzy mode globs still match, otherwise names must be equal,
and no sort is applied. -/
def findByName (doc : List Line) (cache : List (String × String))
    (pattern : String) (fuzzy : Bool) : List FindResult :=
  let gos := extractGameobjects doc
  let pis := extractPrefabInstances doc cache
  if fuzzy then
    let lp := lowerStr pattern
    let m1 := gos.filterMap (fun go =>
      if hasGlobChars pattern then
        if globMatch pattern go.name then some (FindResult.fromGameObject go (some 80)) else none
      else
        let ln := lowerStr go.name
        if strContainsSub ln lp then
          some (FindResult.fromGameObject go (some (calculateFuzzyScore lp ln)))
        else none)
    let m2 := pis.filterMap (fun pi =>
      if hasGlobChars pattern then
        if globMatch pattern pi.name then some (FindResult.fromPrefabInstance pi (some 80)) else none
      else
        let ln := lowerStr pi.name
        if strContainsSub ln lp then
          some (FindResult.fromPrefabInstance pi (some (calculateFuzzyScore lp ln)))
        else none)
    List.insertionSort scoreGe (m1 ++ m2)
  else
    let m1 := gos.filterMap (fun go =>
      if (if hasGlobChars pattern then globMatch pattern go.name else go.name == pattern) then
        some (FindResult.fromGameObject go none)
      else none)
    let m2 := pis.filterMap (fun pi =>
      if (if hasGlobChars pattern then globMatch pattern pi.name else pi.name == pattern) then
        some (FindResult.fromPrefabInstance pi none)
      else none)
    m1 ++ m2

/-- Pagination options (common/types.rs, struct PaginationOptions, without
the file path, which the model replaces by the document itself). -/
structure PaginationOptions where
  include_properties : Option Bool := none
  verbose : Option Bool := none
  page_size : Option Nat := none
  cursor : Option Nat := none
  max_depth : Option Nat := none
  filter_component : Option String := none
  deriving DecidableEq, Repr

/-- Paginated inspection result (scanner/mod.rs construction sites of
PaginatedInspection, which carry total and total_in_scene). -/
structure PaginatedInspection where
  total : Nat
  total_in_scene : Nat
  cursor : Nat
  next_cursor : Option Nat
  truncated : Bool
  page_size : Nat
  gameobjects : List GameObjectDetail
  prefab_instances : Option (List PrefabInstanceInfo)
  error : Option String
  deriving DecidableEq, Repr

/-- Effective page size: requested value defaulting to 200, capped at 1000
(scanner/mod.rs, inspect_all_paginated). -/
def effPageSize (opts : PaginationOptions) : Nat :=
  min (opts.page_size.getD 200) 1000

/-- Effective max depth: requested value defaulting to 10, capped at 50
(scanner/mod.rs, inspect_all_paginated). -/
def effMaxDepth (opts : PaginationOptions) : Nat :=
  min (opts.max_depth.getD 10) 50

/-- Lightweight hierarchy info of phase 1 of inspect_all_paginated
(struct GoHierarchyInfo in scanner/mod.rs); the Rust index into the
extracted GameObject list is replaced by the GameObject itself. -/
structure GoHierarchyInfo where
  go : GameObject
  transform_file_id : Option String
  parent_transform_id : Option String
  deriving DecidableEq, Repr

/-- Phase 1 of inspect_all_paginated (scanner/mod.rs): for every extracted
GameObject, its parent link (via extract_metadata_indexed) and its own
hierarchy-provider component's file id (the first component reference whose
indexed class is a hierarchy provider). -/
def goHierarchyInfos (doc : List Line) (cfg : ComponentConfig) : List GoHierarchyInfo :=
  (extractGameobjects doc).map (fun obj =>
    let m := extractMetadataIndexed doc obj.file_id cfg
    let tf := (blockIndexGetByClass doc cfg.gameobject_class_id obj.file_id).bind
      (fun goBlock => (compRefs goBlock).find? (fun r =>
        match blockIndexGet doc r with
        | some (cid, _) => cfg.hierarchy_providers.contains cid
        | none => false))
    { go := obj, transform_file_id := tf, parent_transform_id := m.2.2.1 })

/-- The transform-to-parent map of phase 2 (scanner/mod.rs): pairs inserted
for every info carrying both ids. -/
def parentPairs (infos : List GoHierarchyInfo) : List (String × String) :=
  infos.filterMap (fun i =>
    match i.transform_file_id, i.parent_transform_id with
    | some t, some p => some (t, p)
    | _, _ => none)

/-- HashMap lookup over the inserted pairs; insertion overwrites, so the
last pair for a key wins. -/
def parentLookup (pm : List (String × String)) (k : String) : Option String :=
  (pm.reverse.find? (fun e => e.1 == k)).map (fun e => e.2)

/-- The compute_depth closure of inspect_all_paginated (scanner/mod.rs):
walk the parent chain, incrementing depth, breaking as soon as the depth
exceeds max_depth (so a deep or cyclic chain yields max_depth + 1). -/
def computeDepthGo (pm : List (String × String)) (maxDepth : Nat)
    (depth : Nat) (current : String) : Nat :=
  match parentLookup pm current with
  | some parent =>
    if parent ≠ "0" ∧ parent ≠ "" then
      if depth + 1 > maxDepth then depth + 1
      else computeDepthGo pm maxDepth (depth + 1) parent
    else depth
  | none => depth
  termination_by maxDepth + 1 - depth
  decreasing_by simp_wf; omega

/-- Depth of a transform id: the walk started at depth 0. -/
def computeDepth (pm : List (String × String)) (maxDepth : Nat) (tid : String) : Nat :=
  computeDepthGo pm maxDepth 0 tid

/-- A GameObject together with its computed depth and boundary flag
(struct GoWithDepth in scanner/mod.rs, carrying the GameObject instead of
its index). -/
structure GoWithDepth where
  go : GameObject
  depth : Nat
  at_boundary : Bool
  deriving DecidableEq, Repr

/-- The lightweight component-type filter of inspect_all_paginated
(scanner/mod.rs): whether some component reference of the GameObject block
resolves to a block whose declared type name equals the filter. -/
def hasComponentOfType (doc : List Line) (cfg : ComponentConfig)
    (fid : String) (ft : String) : Bool :=
  match blockIndexGetByClass doc cfg.gameobject_class_id fid with
  | none => false
  | some goBlock =>
    (compRefs goBlock).any (fun r =>
      match blockIndexGet doc r with
      | some (_, block) => bodyTypeName block == some ft
      | none => false)

/-- Phase 2 of inspect_all_paginated (scanner/mod.rs): compute each
GameObject's depth, drop those beyond the effective max depth (only when the
cap is strict, max_depth < 50), mark boundary entries, and apply the
component type filter.  This is the "post-filter ordered result set" that
the cursor indexes into. -/
def pagFiltered (doc : List Line) (cfg : ComponentConfig)
    (opts : PaginationOptions) : List GoWithDepth :=
  let maxDepth := effMaxDepth opts
  let infos := goHierarchyInfos doc cfg
  let pm := parentPairs infos
  let byDepth := infos.filterMap (fun info =>
    let depth := (info.transform_file_id.map (computeDepth pm maxDepth)).getD 0
    if maxDepth < 50 ∧ depth > maxDepth then none
    else some { go := info.go, depth := depth,
                at_boundary := decide (maxDepth < 50 ∧ depth = maxDepth) })
  match opts.filter_component with
  | none => byDepth
  | some ft => byDepth.filter (fun gwd => hasComponentOfType doc cfg gwd.go.file_id ft)

/-- Phase 3 per-page extraction of inspect_all_paginated (scanner/mod.rs):
full detail for one sliced entry, with depth recorded, children cleared at
the depth boundary, and properties / script GUIDs cleared unless requested. -/
def pagDetail (doc : List Line) (cache : List (String × String))
    (cfg : ComponentConfig) (includeProps verbose : Bool)
    (gwd : GoWithDepth) : GameObjectDetail :=
  let components := extractComponentsIndexed doc gwd.go.file_id cache cfg
  let d0 := extractGameobjectDetailsIndexed doc gwd.go components cfg
  let d1 := { d0 with depth := some gwd.depth }
  let d2 := if gwd.at_boundary then { d1 with children := none } else d1
  let d3 := if includeProps then d2
    else { d2 with components := d2.components.map (fun c => { c with properties := none }) }
  if verbose then d3
  else { d3 with components := d3.components.map (fun c => { c with script_guid := none }) }

/-- Translation of Scanner::inspect_all_paginated (scanner/mod.rs), over an
already read document (the missing-file and unreadable-file branches concern
the filesystem and are outside the model). -/
def inspectAllPaginated (doc : List Line) (cache : List (String × String))
    (cfg : ComponentConfig) (opts : PaginationOptions) : PaginatedInspection :=
  let include_properties := opts.include_properties.getD false
  let verbose := opts.verbose.getD false
  let page_size := effPageSize opts
  let cursor := opts.cursor.getD 0
  let gameobjects := extractGameobjects doc
  let total_in_scene := gameobjects.length
  let filtered := pagFiltered doc cfg opts
  let total := filtered.length
  let prefab_instances :=
    if cursor = 0 then
      let pis := extractPrefabInstances doc cache
      if pis.isEmpty then none else some pis
    else none
  let start := cursor
  let e := min (start + page_size) filtered.length
  let truncated := decide (e < filtered.length)
  let next_cursor := if truncated then some e else none
  let page_slice := if start < filtered.length then (filtered.drop start).take (e - start) else []
  let page := page_slice.map (pagDetail doc cache cfg include_properties verbose)
  { total := total, total_in_scene := total_in_scene, cursor := cursor,
    next_cursor := next_cursor, truncated := truncated, page_size := page_size,
    gameobjects := page, prefab_instances := prefab_instances, error := none }

/-- Full scene inspection result (common/types.rs, struct SceneInspection,
without the file path). -/
structure SceneInspection where
  count : Nat
  gameobjects : List GameObjectDetail
  prefab_instances : Option (List PrefabInstanceInfo)
  deriving DecidableEq, Repr

/-- Translation of Scanner::inspect_all (scanner/mod.rs). -/
def inspectAll (doc : List Line) (cache : List (String × String))
    (cfg : ComponentConfig) (includeProps verbose : Bool) : SceneInspection :=
  let gos := extractGameobjects doc
  let detailed := gos.map (fun obj =>
    let comps := extractComponentsIndexed doc obj.file_id cache cfg
    let d0 := extractGameobjectDetailsIndexed doc obj comps cfg
    let d1 := if includeProps then d0
      else { d0 with components := d0.components.map (fun c => { c with properties := none }) }
    if verbose then d1
    else { d1 with components := d1.components.map (fun c => { c with script_guid := none }) })
  let pis := extractPrefabInstances doc cache
  { count := detailed.length, gameobjects := detailed,
    prefab_instances := if pis.isEmpty then none else some pis }

/-- Translation of class_id_to_name (scanner/mod.rs). -/
def classIdToName (c : Nat) : String :=
  match c with
  | 1 => "GameObject"
  | 2 => "Component"
  | 4 => "Transform"
  | 8 => "Behaviour"
  | 12 => "ParticleAnimator"
  | 20 => "Camera"
  | 23 => "MeshRenderer"
  | 25 => "Renderer"
  | 33 => "MeshFilter"
  | 54 => "Rigidbody"
  | 64 => "MeshCollider"
  | 65 => "BoxCollider"
  | 82 => "AudioSource"
  | 108 => "Light"
  | 111 => "Animation"
  | 114 => "MonoBehaviour"
  | 115 => "MonoScript"
  | 120 => "LineRenderer"
  | 124 => "Behaviour"
  | 135 => "SphereCollider"
  | 136 => "CapsuleCollider"
  | 137 => "SkinnedMeshRenderer"
  | 198 => "ParticleSystem"
  | 205 => "LODGroup"
  | 212 => "SpriteRenderer"
  | 222 => "CanvasRenderer"
  | 223 => "Canvas"
  | 224 => "RectTransform"
  | 225 => "CanvasGroup"
  | 1001 => "PrefabInstance"
  | _ => "Unknown"

/-- One insertion step of the modification grouping in
Scanner::build_prefab_instance_output (scanner/mod.rs):
grouped.entry(target).or_default().push((propertyPath, value)). -/
def insertGrouped (acc : List (String × List (String × String)))
    (m : PrefabModification) : List (String × List (String × String)) :=
  match acc with
  | [] => [(m.target_file_id, [(m.property_path, m.value)])]
  | (k, vs) :: rest =>
    if k = m.target_file_id then (k, vs ++ [(m.property_path, m.value)]) :: rest
    else (k, vs) :: insertGrouped rest m

/-- The modification grouping of Scanner::build_prefab_instance_output
(scanner/mod.rs): modifications bucketed by target file id.  The HashMap's
unspecified bucket order is rendered as first-occurrence order; bucket
contents and the key set match the Rust map exactly. -/
def groupModifications (mods : List PrefabModification) :
    List (String × List (String × String)) :=
  mods.foldl insertGrouped []

/-- Result of Scanner::inspect (scanner/mod.rs): either nothing (the None
returns), one of the structured error values embedded in the response JSON
(is_error: true), a PrefabInstance output (with grouped modifications when
properties were requested), or a GameObject detail output. -/
inductive InspectResult where
  | noResult
  | errMultiple (identifier : String) (candidateIds : List String)
  | errStripped (id : String)
  | errWrongKind (id : String) (typeName : String) (classId : Nat)
  | prefabOutput (pi : PrefabInstanceInfo)
      (modifications : Option (List (String × List (String × String))))
  | detailOutput (d : GameObjectDetail)
  deriving DecidableEq, Repr

/-- Whether an inspect result is one of the structured error values
(the JSON objects built with is_error: true in scanner/mod.rs). -/
def InspectResult.isError : InspectResult → Bool
  | InspectResult.errMultiple _ _ => true
  | InspectResult.errStripped _ => true
  | InspectResult.errWrongKind _ _ _ => true
  | _ => false

/-- Translation of Scanner::build_prefab_instance_output (scanner/mod.rs). -/
def buildPrefabInstanceOutput (doc : List Line) (pi : PrefabInstanceInfo)
    (includeProps : Bool) : InspectResult :=
  InspectResult.prefabOutput pi
    (if includeProps then
      (extractPrefabBlock doc pi.file_id).map (fun b => groupModifications (extractModifications b))
     else none)

/-- The fallback block search of Scanner::inspect (scanner/mod.rs): the
regex "--- !u!(\d+) &id(?: stripped)?" has no terminator after the id, so it
finds the first header whose file id extends the target id; the stripped
marker is part of the match only when the id matches exactly and the header
carries it.  Returns (class id, matched-stripped flag). -/
def findBlockForInspect (doc : List Line) (id : String) : Option (Nat × Bool) :=
  doc.findSome? (fun l => match l with
    | Line.header c f s => if strStartsWith f id then some (c, s && (f == id)) else none
    | _ => none)

/-- The part of Scanner::inspect after target resolution (scanner/mod.rs):
PrefabInstance match first, then extracted GameObjects, then the raw block
fallback producing the stripped / wrong-kind structured errors. -/
def inspectWithTarget (doc : List Line) (cache : List (String × String))
    (cfg : ComponentConfig) (target : String) (includeProps : Bool) : InspectResult :=
  let prefabs := extractPrefabInstances doc cache
  match prefabs.find? (fun p => p.file_id == target) with
  | some pi => buildPrefabInstanceOutput doc pi includeProps
  | none =>
    let gos := extractGameobjects doc
    match gos.find? (fun o => o.file_id == target) with
    | some obj =>
      let comps := extractComponentsIndexed doc target cache cfg
      InspectResult.detailOutput (extractGameobjectDetailsIndexed doc obj comps cfg)
    | none =>
      match findBlockForInspect doc target with
      | some (classId, strippedExact) =>
        if classId = 1 ∧ strippedExact then InspectResult.errStripped target
        else InspectResult.errWrongKind target (classIdToName classId) classId
      | none => InspectResult.noResult

/-- Translation of Scanner::inspect (scanner/mod.rs), over an already read
document: an all-digits identifier is a literal file id; otherwise the name
is resolved through fuzzy find_by_name, with more than one match producing
the structured ambiguity error enumerating every candidate file id. -/
def inspect (doc : List Line) (cache : List (String × String))
    (cfg : ComponentConfig) (identifier : String) (includeProps : Bool) : InspectResult :=
  if identifier.data.all Char.isDigit then
    inspectWithTarget doc cache cfg identifier includeProps
  else
    let ms := findByName doc cache identifier true
    if ms.length > 1 then
      InspectResult.errMultiple identifier (ms.map (fun m => m.file_id))
    else
      match ms.head? with
      | none => InspectResult.noResult
      | some m => inspectWithTarget doc cache cfg m.file_id includeProps

/-! Raw-string level embedding of property extraction
(scanner/component.rs): these functions work on genuine strings, since the
multi-line value reassembly and GUID annotation are string algorithms. -/

/-- Identifier characters of the property-key regex class. -/
def isIdentChar (c : Char) : Bool :=
  c.isAlphanum || c = '_'

/-- Lowercase-hex digits of the GUID regex class. -/
def isHexLower (c : Char) : Bool :=
  ('0' ≤ c && c ≤ '9') || ('a' ≤ c && c ≤ 'f')

/-- Opening and closing braces as characters (written by code point to keep
brace characters out of string literals). -/
def lbrace : Char := Char.ofNat 123

/-- Closing brace character. -/
def rbrace : Char := Char.ofNat 125

/-- Number of occurrences of a character in a string (the
str::matches(c).count() calls of extract_properties). -/
def countChar (s : String) (c : Char) : Nat :=
  s.data.count c

/-- The entry condition of the multi-line reassembly in extract_properties
(scanner/component.rs): the value opens more braces or brackets than it
closes. -/
def unbalancedOpen (v : String) : Bool :=
  decide (countChar v rbrace < countChar v lbrace) ||
    decide (countChar v ']' < countChar v '[')

/-- The stop condition of the reassembly loop: open counts no longer exceed
close counts for both braces and brackets. -/
def balancedClose (v : String) : Bool :=
  decide (countChar v lbrace ≤ countChar v rbrace) &&
    decide (countChar v '[' ≤ countChar v ']')

/-- The per-line property regex of extract_properties
(scanner/component.rs): optional leading whitespace, an optional m_ prefix
(kept as part of the key only when no identifier follows it), an identifier
key, a colon, and a non-empty rest whose trim is the captured clean value.
Returns (key without the m_ prefix, trimmed value). -/
def propLine? (s : String) : Option (String × String) :=
  let rest := s.data.dropWhile isRustSpace
  let keyRest : Option (List Char × List Char) :=
    if rest.take 2 = ['m', '_'] ∧ (rest.drop 2).takeWhile isIdentChar ≠ [] then
      some ((rest.drop 2).takeWhile isIdentChar, (rest.drop 2).dropWhile isIdentChar)
    else if rest.takeWhile isIdentChar ≠ [] then
      some (rest.takeWhile isIdentChar, rest.dropWhile isIdentChar)
    else none
  match keyRest with
  | none => none
  | some (key, rest2) =>
    match rest2 with
    | ':' :: tail =>
      if tail = [] then none
      else some (String.mk key, strTrim (String.mk tail))
    | _ => none

/-- The metadata deny list METADATA_PROPERTIES (scanner/component.rs). -/
def metadataProperties : List String :=
  ["ObjectHideFlags", "CorrespondingSourceObject", "PrefabInstance",
   "PrefabAsset", "PrefabInternal"]

/-- The guid capture of the regex in resolve_guid_in_value: after "guid:",
skip whitespace and require exactly 32 lowercase-hex characters. -/
def matchGuidAt (cs : List Char) : Option String :=
  let hex := (cs.dropWhile isRustSpace).take 32
  if hex.length = 32 ∧ hex.all isHexLower then some (String.mk hex) else none

/-- Leftmost search for the guid pattern over the character list. -/
def findGuidL : List Char → Option String
  | [] => none
  | c :: t =>
    if ['g', 'u', 'i', 'd', ':'].isPrefixOf (c :: t) then
      match matchGuidAt ((c :: t).drop 5) with
      | some g => some g
      | none => findGuidL t
    else findGuidL t

/-- First guid capture in a string. -/
def findGuid (s : String) : Option String :=
  findGuidL s.data

/-- Translation of resolve_guid_in_value (scanner/component.rs): when the
value embeds a guid that the cache resolves, append an arrow-annotated path
to the raw value, never replacing it. -/
def resolveGuidInValue (value : String) (cache : List (String × String)) : String :=
  if !strContainsSub value "guid:" then value
  else
    match findGuid value with
    | some g =>
      match cacheFind cache g with
      | some p => value ++ " -> " ++ p
      | none => value
    | none => value

/-- The continuation loop of extract_properties (scanner/component.rs):
append trimmed following lines, joined by single spaces, until the brace and
bracket counts balance; a line starting with a block header stops the loop
without being consumed; end of block keeps the value as captured so far.
Returns the reassembled value and the unconsumed lines. -/
def absorb (v : String) : List String → String × List String
  | [] => (v, [])
  | l :: rest =>
    if strStartsWith (strTrim l) "--- !u!" then (v, l :: rest)
    else
      let v' := v ++ " " ++ strTrim l
      if balancedClose v' then (v', rest) else absorb v' rest

theorem absorb_rest_length : ∀ (ls : List String) (v : String),
    (absorb v ls).2.length ≤ ls.length := by
  intro ls
  induction ls with
  | nil => intro v; simp [absorb]
  | cons l rest ih =>
    intro v
    simp only [absorb]
    by_cases h1 : strStartsWith (strTrim l) "--- !u!" = true
    · simp [h1]
    · simp only [h1]
      by_cases h2 : balancedClose (v ++ " " ++ strTrim l) = true
      · simp [h2]
      · simp only [h2, if_neg]
        exact Nat.le_succ_of_le (ih _)

/-- The property-walk loop of extract_properties (scanner/component.rs)
over the lines of a block body: parse each property line, skip deny-listed
keys, reassemble multi-line values, and annotate guids through the cache.
Properties are returned as a key/value list in insertion order. -/
def extractPropsGo (cache : List (String × String)) : List String → List (String × String)
  | [] => []
  | l :: rest =>
    match propLine? l with
    | none => extractPropsGo cache rest
    | some (key, v0) =>
      if key ∈ metadataProperties then extractPropsGo cache rest
      else if unbalancedOpen v0 then
        let a := absorb v0 rest
        (key, resolveGuidInValue a.1 cache) :: extractPropsGo cache a.2
      else (key, resolveGuidInValue v0 cache) :: extractPropsGo cache rest
  termination_by ls => ls.length
  decreasing_by
    all_goals simp_wf
    · exact Nat.lt_succ_of_le (absorb_rest_length rest v0)

/-- Translation of the per-block part of extract_properties
(scanner/component.rs), applied to the lines of a block body. -/
def extractProperties (blockLines : List String) (cache : List (String × String)) :
    List (String × String) :=
  extractPropsGo cache blockLines

/-! Concrete documents used by witnesses, counterexamples, and the
example-level parts of the claims. -/

/-- A three-level parent chain Root → Child → Grandchild linked through
Transform components. -/
def chainDoc : List Line :=
  [Line.header 1 "100" false, Line.typeLine "GameObject", Line.compRefLine "10",
   Line.nameLine "Root", Line.isActiveLine 1,
   Line.header 4 "10" false, Line.typeLine "Transform", Line.fatherLine "0",
   Line.childrenLine ["20"],
   Line.header 1 "200" false, Line.typeLine "GameObject", Line.compRefLine "20",
   Line.nameLine "Child", Line.isActiveLine 1,
   Line.header 4 "20" false, Line.typeLine "Transform", Line.fatherLine "10",
   Line.childrenLine ["30"],
   Line.header 1 "300" false, Line.typeLine "GameObject", Line.compRefLine "30",
   Line.nameLine "Grandchild", Line.isActiveLine 1,
   Line.header 4 "30" false, Line.typeLine "Transform", Line.fatherLine "20",
   Line.childrenLine []]

/-- A document holding one GameObject and one PrefabInstance whose single
modification renames it. -/
def pagedPrefabDoc : List Line :=
  [Line.header 1 "500000" false, Line.typeLine "GameObject",
   Line.nameLine "Camera", Line.isActiveLine 1,
   Line.header 1001 "700000" false, Line.typeLine "PrefabInstance",
   Line.targetLine "100000" (some "a1b2c3d4e5f6789012345678abcdef12"),
   Line.pathLine "m_Name", Line.valueLine "MyEnemy", Line.objRefLine,
   Line.sourcePrefabLine "a1b2c3d4e5f6789012345678abcdef12"]

/-- A modification list with three modifications targeting two distinct
object identifiers (the m_Modifications section of prefab.rs's test block). -/
def threeModsBlock : List Line :=
  [Line.typeLine "PrefabInstance", Line.otherLine,
   Line.targetLine "100000" (some "a1b2c3d4e5f6789012345678abcdef12"),
   Line.pathLine "m_Name", Line.valueLine "MyEnemy", Line.objRefLine,
   Line.targetLine "400000" (some "a1b2c3d4e5f6789012345678abcdef12"),
   Line.pathLine "m_LocalPosition.x", Line.valueLine "5", Line.objRefLine,
   Line.targetLine "400000" (some "a1b2c3d4e5f6789012345678abcdef12"),
   Line.pathLine "m_LocalPosition.y", Line.valueLine "0", Line.objRefLine]

/-- The value obtained by joining trimmed continuation lines onto an initial
value with single spaces (the shape produced by the reassembly loop). -/
def joinTrimmed (v : String) (cs : List String) : String :=
  cs.foldl (fun a l => a ++ " " ++ strTrim l) v

/-- A document with two GameObjects named Camera and MainCamera. -/
def camDoc : List Line :=
  [Line.header 1 "1" false, Line.typeLine "GameObject", Line.nameLine "Camera",
   Line.isActiveLine 1,
   Line.header 1 "2" false, Line.typeLine "GameObject", Line.nameLine "MainCamera",
   Line.isActiveLine 1]

/-- Lines following a stripped GameObject header, then a normal GameObject
block. -/
def strippedExPost : List Line :=
  [Line.typeLine "GameObject", Line.otherLine,
   Line.header 1 "101" false, Line.typeLine "GameObject",
   Line.nameLine "RealObject", Line.isActiveLine 1]

/-- A document with one GameObject and one Transform component block, the
Transform's id shared with no other header prefix. -/
def wrongKindDoc : List Line :=
  [Line.header 1 "900" false, Line.typeLine "GameObject", Line.nameLine "Solo",
   Line.isActiveLine 1,
   Line.header 4 "42" false, Line.typeLine "Transform", Line.fatherLine "0",
   Line.childrenLine []]

/-- A document with one PrefabInstance whose single modification has the
property path m_NameXYZ (which starts with, but is not, m_Name). -/
def c8Doc : List Line :=
  [Line.header 1001 "800000" false, Line.typeLine "PrefabInstance",
   Line.targetLine "100000" (some "a1b2c3d4e5f6789012345678abcdef12"),
   Line.pathLine "m_NameXYZ", Line.valueLine "Foo", Line.objRefLine,
   Line.sourcePrefabLine "a1b2c3d4e5f6789012345678abcdef12"]

/-- The display name as the claim words it: the value of the first
modification-list entry whose property path is exactly the display-name
field m_Name and whose value is non-empty, else the unnamed placeholder. -/
def claimDisplayName (mods : List PrefabModification) : String :=
  match mods.find? (fun m => m.property_path == "m_Name" && m.value != "") with
  | some m => m.value
  | none => "<unnamed>"

/-- The canonical four-line rendering of one modification entry inside an
m_Modifications section. -/
def renderMod (m : PrefabModification) : List Line :=
  [Line.targetLine m.target_file_id m.target_guid, Line.pathLine m.property_path,
   Line.valueLine m.value, Line.objRefLine]

/-- The canonical rendering of a whole modification list. -/
def renderMods : List PrefabModification → List Line
  | [] => []
  | m :: tl => renderMod m ++ renderMods tl

/-! General helper lemmas. -/

theorem pageSlice_eq_drop_take {α : Type} (l : List α) (cur ps : Nat) :
    (if cur < l.length then (l.drop cur).take (min (cur + ps) l.length - cur) else ([] : List α))
      = (l.drop cur).take ps := by
  by_cases h : cur < l.length
  · simp only [if_pos h]
    have hlen : (l.drop cur).length = l.length - cur := List.length_drop cur l
    have hmin : min (cur + ps) l.length - cur = min ps (l.length - cur) := by omega
    rw [hmin, ← hlen]
    conv_rhs => rw [← List.take_length (l.drop cur)]
    rw [List.take_take, Nat.min_comm]
  · simp only [if_neg h]
    rw [List.drop_eq_nil_of_le (le_of_not_lt h), List.take_nil]

theorem min_add_lt_iff (cur ps n : Nat) : min (cur + ps) n < n ↔ cur + ps < n := by
  omega

/-! Claim theorems. -/

set_option maxRecDepth 8000

/-- C5: for the three-level chain root→child→grandchild linked through
hierarchy-provider components, inspect_all_paginated computes depths 0, 1
and 2; with max_depth = 1 the grandchild is excluded from the filtered and
paginated result, and the reported total equals the size of the filtered
set. -/
theorem hierarchy_depth_chain_spec :
    (((inspectAllPaginated chainDoc [] ComponentConfig.default {}).gameobjects.map
        (fun d => (d.name, d.depth)))
      = [("Root", some 0), ("Child", some 1), ("Grandchild", some 2)])
    ∧ (((inspectAllPaginated chainDoc [] ComponentConfig.default
          { max_depth := some 1 }).gameobjects.map (fun d => d.name))
      = ["Root", "Child"])
    ∧ ((pagFiltered chainDoc ComponentConfig.default { max_depth := some 1 }).map
        (fun g => g.go.name) = ["Root", "Child"])
    ∧ (inspectAllPaginated chainDoc [] ComponentConfig.default
        { max_depth := some 1 }).total
      = (pagFiltered chainDoc ComponentConfig.default { max_depth := some 1 }).length := by
  refine ⟨?_, ?_, ?_, ?_⟩ <;>
    simp [inspectAllPaginated, pagFiltered, goHierarchyInfos, extractGameobjects,
      extractGameobjectsWith, extractGosFuel, matchGo, scanName, scanActive,
      extractMetadataIndexed,
      blockIndexGet, blockIndexGetByClass, parseAllBlocks, isHeader, compRefs,
      parentPairs, parentLookup, computeDepth, computeDepthGo, pagDetail,
      extractComponentsIndexed, extractSingleComponentIndexed, bodyTypeName,
      structuredProps, extractGameobjectDetailsIndexed, extractHierarchyIndexed,
      extractTagL, extractLayerL, extractParentFromTransform,
      extractChildrenFromTransform, effPageSize, effMaxDepth, chainDoc,
      ComponentConfig.default, extractPrefabInstances, prefabHeaderIds,
      cacheFind, hasComponentOfType, strTrim, isRustSpace, Option.filter]

/-- C2: the effective page size is the request capped at 1000 (200 when
absent) and the effective max depth is the request capped at 50 (10 when
absent); the returned containers are exactly the page-size window of the
post-filter ordered result set starting at the cursor; truncated holds
exactly when filtered entries remain beyond the window, next_cursor is
present exactly then and equals the offset just past it; total is the
filtered count and total_in_scene the whole-document container count. -/
theorem paginated_slice_spec (doc : List Line) (cache : List (String × String))
    (cfg : ComponentConfig) (opts : PaginationOptions) :
    (inspectAllPaginated doc cache cfg opts).page_size = min (opts.page_size.getD 200) 1000
    ∧ effMaxDepth opts = min (opts.max_depth.getD 10) 50
    ∧ (inspectAllPaginated doc cache cfg opts).gameobjects
      = (((pagFiltered doc cfg opts).drop (opts.cursor.getD 0)).take
            (min (opts.page_size.getD 200) 1000)).map
          (pagDetail doc cache cfg (opts.include_properties.getD false)
            (opts.verbose.getD false))
    ∧ ((inspectAllPaginated doc cache cfg opts).truncated = true
        ↔ opts.cursor.getD 0 + min (opts.page_size.getD 200) 1000
            < (pagFiltered doc cfg opts).length)
    ∧ (inspectAllPaginated doc cache cfg opts).next_cursor
      = (if opts.cursor.getD 0 + min (opts.page_size.getD 200) 1000
            < (pagFiltered doc cfg opts).length
         then some (opts.cursor.getD 0 + min (opts.page_size.getD 200) 1000) else none)
    ∧ (inspectAllPaginated doc cache cfg opts).total = (pagFiltered doc cfg opts).length
    ∧ (inspectAllPaginated doc cache cfg opts).total_in_scene
      = (extractGameobjects doc).length
    ∧ (inspectAllPaginated doc cache cfg opts).cursor = opts.cursor.getD 0 := by
  have hps : effPageSize opts = min (opts.page_size.getD 200) 1000 := rfl
  refine ⟨rfl, rfl, ?_, ?_, ?_, rfl, rfl, rfl⟩
  · show (inspectAllPaginated doc cache cfg opts).gameobjects = _
    simp only [inspectAllPaginated, hps]
    rw [pageSlice_eq_drop_take]
  · simp only [inspectAllPaginated, hps]
    constructor
    · intro h
      have := of_decide_eq_true h
      omega
    · intro h
      exact decide_eq_true (by omega)
  · simp only [inspectAllPaginated, hps]
    by_cases h : opts.cursor.getD 0 + min (opts.page_size.getD 200) 1000
        < (pagFiltered doc cfg opts).length
    · rw [if_pos h]
      have hd : decide (min (opts.cursor.getD 0 + min (opts.page_size.getD 200) 1000)
          (pagFiltered doc cfg opts).length < (pagFiltered doc cfg opts).length) = true :=
        decide_eq_true (by omega)
      simp only [hd, if_true]
      congr 1
      omega
    · rw [if_neg h]
      have hd : decide (min (opts.cursor.getD 0 + min (opts.page_size.getD 200) 1000)
          (pagFiltered doc cfg opts).length < (pagFiltered doc cfg opts).length) = false :=
        decide_eq_false (by omega)
      simp only [hd, Bool.false_eq_true, if_false]

theorem strStartsWith_self (s : String) : strStartsWith s s = true := by
  simp [strStartsWith, List.isPrefixOf_iff_prefix]

theorem mem_prefabHeaderIds {doc : List Line} {f : String} :
    f ∈ prefabHeaderIds doc ↔ Line.header 1001 f false ∈ doc := by
  simp only [prefabHeaderIds, List.mem_filterMap]
  constructor
  · rintro ⟨a, ha, hg⟩
    cases a
    all_goals simp only at hg
    case header c f' s =>
      by_cases hcs : c = 1001 ∧ s = false
      · rw [if_pos hcs] at hg
        injection hg with hf
        subst hf
        obtain ⟨h1, h2⟩ := hcs
        subst h1
        subst h2
        exact ha
      · rw [if_neg hcs] at hg
        exact Option.noConfusion hg
    all_goals exact Option.noConfusion hg
  · intro h
    exact ⟨Line.header 1001 f false, h, by simp⟩

theorem prefabHeaderIds_cons_header (c : Nat) (f' : String) (s : Bool) (rest : List Line) :
    prefabHeaderIds (Line.header c f' s :: rest)
      = if c = 1001 ∧ s = false then f' :: prefabHeaderIds rest else prefabHeaderIds rest := by
  simp only [prefabHeaderIds, List.filterMap_cons]
  by_cases hcs : c = 1001 ∧ s = false
  · rw [if_pos hcs, if_pos hcs]
  · rw [if_neg hcs, if_neg hcs]

theorem extractPrefabBlock_isSome_of_mem {doc : List Line} {f : String}
    (h : f ∈ prefabHeaderIds doc) : ∃ b, extractPrefabBlock doc f = some b := by
  induction doc with
  | nil => simp [prefabHeaderIds] at h
  | cons l rest ih =>
    cases l
    case header c f' s =>
      by_cases hcp : c = 1001 ∧ strStartsWith f' f = true
      · exact ⟨rest.takeWhile (fun x => !isHeader x),
          by simp only [extractPrefabBlock]; rw [if_pos hcp]⟩
      · rw [show extractPrefabBlock (Line.header c f' s :: rest) f = extractPrefabBlock rest f
            from by simp only [extractPrefabBlock]; rw [if_neg hcp]]
        apply ih
        rw [prefabHeaderIds_cons_header] at h
        by_cases hcs : c = 1001 ∧ s = false
        · rw [if_pos hcs] at h
          rcases List.mem_cons.mp h with heq | hmem
          · subst heq
            exact absurd ⟨hcs.1, strStartsWith_self f⟩ hcp
          · exact hmem
        · rwa [if_neg hcs] at h
    all_goals
      simp only [extractPrefabBlock]
      apply ih
      simpa [prefabHeaderIds] using h

theorem extractPrefabInstances_ne_nil_iff (doc : List Line) (cache : List (String × String)) :
    extractPrefabInstances doc cache ≠ [] ↔ ∃ f, Line.header 1001 f false ∈ doc := by
  constructor
  · intro h
    obtain ⟨x, hx⟩ := List.exists_mem_of_ne_nil _ h
    obtain ⟨fid, hfid, _⟩ := List.mem_filterMap.mp hx
    exact ⟨fid, mem_prefabHeaderIds.mp hfid⟩
  · rintro ⟨f, hf⟩
    have hmem : f ∈ prefabHeaderIds doc := mem_prefabHeaderIds.mpr hf
    obtain ⟨b, hb⟩ := extractPrefabBlock_isSome_of_mem hmem
    intro hnil
    rw [extractPrefabInstances, List.filterMap_eq_nil_iff] at hnil
    have hat := hnil f hmem
    rw [hb] at hat
    exact Option.noConfusion hat

/-- C10: inspect_all_paginated returns prefab-instance summaries only on the
first page: with cursor 0 the prefab_instances field is populated exactly
when the document holds at least one prefab instance; with a non-zero cursor
it is absent regardless of the document. -/
theorem prefab_instances_first_page_only (doc : List Line)
    (cache : List (String × String)) (cfg : ComponentConfig)
    (opts : PaginationOptions) :
    (opts.cursor.getD 0 = 0 →
      ((inspectAllPaginated doc cache cfg opts).prefab_instances
          = (if (extractPrefabInstances doc cache).isEmpty then none
             else some (extractPrefabInstances doc cache)))
        ∧ ((inspectAllPaginated doc cache cfg opts).prefab_instances ≠ none
            ↔ ∃ f, Line.header 1001 f false ∈ doc))
    ∧ (opts.cursor.getD 0 ≠ 0 →
        (inspectAllPaginated doc cache cfg opts).prefab_instances = none) := by
  have hfield : (inspectAllPaginated doc cache cfg opts).prefab_instances
      = if opts.cursor.getD 0 = 0 then
          (if (extractPrefabInstances doc cache).isEmpty then none
           else some (extractPrefabInstances doc cache))
        else none := rfl
  constructor
  · intro h0
    rw [hfield, if_pos h0]
    refine ⟨rfl, ?_⟩
    by_cases he : (extractPrefabInstances doc cache).isEmpty
    · rw [if_pos he]
      have hnil : extractPrefabInstances doc cache = [] := by
        simpa using he
      simp only [ne_eq, not_true_eq_false, false_iff]
      intro hex
      exact absurd hnil ((extractPrefabInstances_ne_nil_iff doc cache).mpr hex)
    · rw [if_neg he]
      have hne : extractPrefabInstances doc cache ≠ [] := by
        simpa using he
      constructor
      · intro _
        exact (extractPrefabInstances_ne_nil_iff doc cache).mp hne
      · intro _
        simp
  · intro hne
    rw [hfield, if_neg hne]

/-- Witness for C10 at a concrete document: with cursor 0 the prefab list is
populated, with cursor 5 it is absent. -/
theorem prefab_instances_first_page_only_witness :
    ((inspectAllPaginated pagedPrefabDoc [] ComponentConfig.default
        {}).prefab_instances ≠ none)
    ∧ ((inspectAllPaginated pagedPrefabDoc [] ComponentConfig.default
        { cursor := some 5 }).prefab_instances = none) := by
  constructor
  · exact ((prefab_instances_first_page_only pagedPrefabDoc []
      ComponentConfig.default {}).1 rfl).2.mpr
      ⟨"700000", by simp [pagedPrefabDoc]⟩
  · exact (prefab_instances_first_page_only pagedPrefabDoc []
      ComponentConfig.default { cursor := some 5 }).2 (by decide)

/-! Lemmas about the modification grouping (C9). -/

/-- HashMap-style lookup into the grouped buckets: the first (unique) bucket
for a key. -/
def groupLookup (g : List (String × List (String × String))) (t : String) :
    Option (List (String × String)) :=
  (g.find? (fun e => e.1 == t)).map (fun e => e.2)

theorem insertGrouped_keys (acc : List (String × List (String × String)))
    (m : PrefabModification) :
    (insertGrouped acc m).map Prod.fst
      = if m.target_file_id ∈ acc.map Prod.fst then acc.map Prod.fst
        else acc.map Prod.fst ++ [m.target_file_id] := by
  induction acc with
  | nil => simp [insertGrouped]
  | cons e rest ih =>
    obtain ⟨k, vs⟩ := e
    by_cases hk : k = m.target_file_id
    · subst hk
      simp [insertGrouped]
    · simp only [insertGrouped, if_neg hk, List.map_cons, ih]
      by_cases hm : m.target_file_id ∈ rest.map Prod.fst
      · rw [if_pos hm, if_pos (by simp [hm])]
      · rw [if_neg hm, if_neg (by simp [hm, Ne.symm hk])]
        simp

theorem insertGrouped_lookup_getD (acc : List (String × List (String × String)))
    (m : PrefabModification) (t : String) :
    (groupLookup (insertGrouped acc m) t).getD []
      = (groupLookup acc t).getD []
          ++ (if m.target_file_id = t then [(m.property_path, m.value)] else []) := by
  induction acc with
  | nil =>
    by_cases ht : m.target_file_id = t
    · have hbe : (m.target_file_id == t) = true := by simp [ht]
      simp [insertGrouped, groupLookup, List.find?, hbe, ht]
    · have hbe : (m.target_file_id == t) = false := by simp [ht]
      simp [insertGrouped, groupLookup, List.find?, hbe, ht]
  | cons e rest ih =>
    obtain ⟨k, vs⟩ := e
    by_cases hk : k = m.target_file_id
    · by_cases ht : k = t
      · have ht2 : m.target_file_id = t := by rw [← hk]; exact ht
        have hbe : (k == t) = true := by simp [ht]
        simp [insertGrouped, hk, groupLookup, List.find?, hbe, ht2]
      · have ht2 : ¬m.target_file_id = t := by rw [← hk]; exact ht
        have hbe : (k == t) = false := by simp [ht]
        have hbe2 : (m.target_file_id == t) = false := by simp [ht2]
        simp [insertGrouped, hk, groupLookup, List.find?, hbe, hbe2, ht2]
    · by_cases ht : k = t
      · have ht2 : ¬m.target_file_id = t := by
          intro hh
          exact hk (by rw [ht, hh])
        have hbe : (k == t) = true := by simp [ht]
        simp [insertGrouped, if_neg hk, groupLookup, List.find?, hbe, ht2]
      · have hbe : (k == t) = false := by simp [ht]
        simp only [insertGrouped, if_neg hk, groupLookup, List.find?, hbe] at ih ⊢
        exact ih

theorem foldl_insertGrouped_keys_mem (mods : List PrefabModification) :
    ∀ (acc : List (String × List (String × String))) (t : String),
    (t ∈ (mods.foldl insertGrouped acc).map Prod.fst
      ↔ t ∈ acc.map Prod.fst ∨ t ∈ mods.map (fun m => m.target_file_id)) := by
  induction mods with
  | nil => intro acc t; simp
  | cons m mods ih =>
    intro acc t
    rw [List.foldl_cons, ih, insertGrouped_keys]
    by_cases hm : m.target_file_id ∈ acc.map Prod.fst
    · rw [if_pos hm]
      simp only [List.map_cons, List.mem_cons, List.mem_append, List.mem_singleton]
      aesop
    · rw [if_neg hm]
      simp only [List.map_cons, List.mem_cons, List.mem_append, List.mem_singleton]
      aesop

theorem foldl_insertGrouped_keys_nodup (mods : List PrefabModification) :
    ∀ (acc : List (String × List (String × String))),
    (acc.map Prod.fst).Nodup → ((mods.foldl insertGrouped acc).map Prod.fst).Nodup := by
  induction mods with
  | nil => intro acc h; simpa using h
  | cons m mods ih =>
    intro acc h
    rw [List.foldl_cons]
    apply ih
    rw [insertGrouped_keys]
    by_cases hm : m.target_file_id ∈ acc.map Prod.fst
    · rwa [if_pos hm]
    · rw [if_neg hm]
      refine List.Nodup.append h (List.nodup_singleton _) ?_
      intro a ha hb
      rw [List.mem_singleton] at hb
      subst hb
      exact hm ha

theorem foldl_insertGrouped_lookup_getD (mods : List PrefabModification) :
    ∀ (acc : List (String × List (String × String))) (t : String),
    (groupLookup (mods.foldl insertGrouped acc) t).getD []
      = (groupLookup acc t).getD []
          ++ (mods.filter (fun m => m.target_file_id = t)).map
              (fun m => (m.property_path, m.value)) := by
  induction mods with
  | nil => intro acc t; simp
  | cons m mods ih =>
    intro acc t
    rw [List.foldl_cons, ih, insertGrouped_lookup_getD, List.append_assoc]
    congr 1
    by_cases ht : m.target_file_id = t
    · simp [List.filter_cons, ht]
    · simp [List.filter_cons, ht]

theorem insertGrouped_sum (acc : List (String × List (String × String)))
    (m : PrefabModification) :
    ((insertGrouped acc m).map (fun b => b.2.length)).sum
      = (acc.map (fun b => b.2.length)).sum + 1 := by
  induction acc with
  | nil => simp [insertGrouped]
  | cons e rest ih =>
    obtain ⟨k, vs⟩ := e
    by_cases hk : k = m.target_file_id
    · subst hk
      simp [insertGrouped]
      omega
    · simp only [insertGrouped, if_neg hk, List.map_cons, List.sum_cons, ih]
      omega

theorem foldl_insertGrouped_sum (mods : List PrefabModification) :
    ∀ (acc : List (String × List (String × String))),
    ((mods.foldl insertGrouped acc).map (fun b => b.2.length)).sum
      = (acc.map (fun b => b.2.length)).sum + mods.length := by
  induction mods with
  | nil => intro acc; simp
  | cons m mods ih =>
    intro acc
    rw [List.foldl_cons, ih, insertGrouped_sum]
    simp
    omega

theorem mem_of_nodup_keys {g : List (String × List (String × String))}
    {t : String} {b : List (String × String)}
    (hmem : (t, b) ∈ g) (hnd : (g.map Prod.fst).Nodup) :
    groupLookup g t = some b := by
  induction g with
  | nil => simp at hmem
  | cons e rest ih =>
    obtain ⟨k, vs⟩ := e
    rcases List.mem_cons.mp hmem with heq | hmem'
    · injection heq with h1 h2
      subst h1
      subst h2
      simp [groupLookup, List.find?]
    · by_cases hk : k = t
      · subst hk
        exfalso
        have : k ∈ rest.map Prod.fst := by
          exact List.mem_map.mpr ⟨(k, b), hmem', rfl⟩
        simp only [List.map_cons, List.nodup_cons] at hnd
        exact hnd.1 this
      · have hne : (k == t) = false := by simp [hk]
        simp only [groupLookup, List.find?, hne]
        have := ih hmem' (by simp only [List.map_cons, List.nodup_cons] at hnd; exact hnd.2)
        simpa [groupLookup] using this

/-- C9: grouping the extracted modifications of a prefab-instance block by
target object identifier yields exactly one bucket per distinct target
identifier, each bucket the ordered list of that target's
property-path/value pairs, with bucket sizes summing to the number of
extracted modifications; in particular three modifications over two targets
group into two buckets holding three entries combined. -/
theorem modification_grouping_spec (block : List Line) :
    (((groupModifications (extractModifications block)).map Prod.fst).Nodup)
    ∧ (∀ t, t ∈ (groupModifications (extractModifications block)).map Prod.fst
        ↔ t ∈ (extractModifications block).map (fun m => m.target_file_id))
    ∧ (∀ t bucket, (t, bucket) ∈ groupModifications (extractModifications block) →
        bucket = ((extractModifications block).filter
            (fun m => m.target_file_id = t)).map (fun m => (m.property_path, m.value)))
    ∧ (((groupModifications (extractModifications block)).map (fun b => b.2.length)).sum
        = (extractModifications block).length)
    ∧ ((groupModifications (extractModifications threeModsBlock)).length = 2
        ∧ ((groupModifications (extractModifications threeModsBlock)).map
            (fun b => b.2.length)).sum = 3) := by
  have hnd : ((groupModifications (extractModifications block)).map Prod.fst).Nodup :=
    foldl_insertGrouped_keys_nodup (extractModifications block) [] (by simp)
  refine ⟨hnd, ?_, ?_, ?_, ?_⟩
  · intro t
    rw [groupModifications, foldl_insertGrouped_keys_mem]
    simp
  · intro t bucket hmem
    have h1 := mem_of_nodup_keys hmem hnd
    have h2 := foldl_insertGrouped_lookup_getD (extractModifications block) [] t
    rw [groupModifications] at h1
    rw [h1] at h2
    simpa [groupLookup] using h2
  · have := foldl_insertGrouped_sum (extractModifications block) []
    simpa [groupModifications] using this
  · decide

/-- If the value does not contain "guid:", the guid search finds nothing. -/
theorem findGuidL_eq_none {cs : List Char}
    (h : listContainsSub ['g', 'u', 'i', 'd', ':'] cs = false) : findGuidL cs = none := by
  induction cs with
  | nil => rfl
  | cons c t ih =>
    rw [listContainsSub, Bool.or_eq_false_iff] at h
    rw [findGuidL]
    simp only [h.1, Bool.false_eq_true, if_false]
    exact ih h.2

/-- C7: GUID resolution never replaces the raw value: the result either
equals the input exactly (the value embeds no guid that the search finds, or
the found 32-character lowercase-hex identifier is absent from the cache) or
is the unchanged input followed by " -> " and the resolved path; in every
case the raw input is a prefix of the result. -/
theorem guid_annotation_preserves_raw (value : String) (cache : List (String × String)) :
    ((resolveGuidInValue value cache = value
        ∧ (findGuid value = none
            ∨ ∃ g, findGuid value = some g ∧ cacheFind cache g = none))
      ∨ (∃ g p, findGuid value = some g ∧ cacheFind cache g = some p
          ∧ resolveGuidInValue value cache = value ++ " -> " ++ p))
    ∧ ∃ tail, resolveGuidInValue value cache = value ++ tail := by
  have main : (resolveGuidInValue value cache = value
        ∧ (findGuid value = none
            ∨ ∃ g, findGuid value = some g ∧ cacheFind cache g = none))
      ∨ (∃ g p, findGuid value = some g ∧ cacheFind cache g = some p
          ∧ resolveGuidInValue value cache = value ++ " -> " ++ p) := by
    rw [resolveGuidInValue]
    by_cases hc : strContainsSub value "guid:" = true
    · simp only [hc, Bool.not_true, Bool.false_eq_true, if_false]
      cases hg : findGuid value with
      | none => exact Or.inl ⟨rfl, Or.inl rfl⟩
      | some g =>
        cases hf : cacheFind cache g with
        | none => exact Or.inl ⟨by simp [hf], Or.inr ⟨g, rfl, hf⟩⟩
        | some p => exact Or.inr ⟨g, p, rfl, hf, by simp [hf]⟩
    · have hc' : strContainsSub value "guid:" = false := by
        simpa using hc
      simp only [hc', Bool.not_false, if_true]
      refine Or.inl ⟨by trivial, Or.inl ?_⟩
      exact findGuidL_eq_none (by simpa [strContainsSub] using hc')
  refine ⟨main, ?_⟩
  rcases main with ⟨heq, _⟩ | ⟨g, p, _, _, heq⟩
  · exact ⟨"", by rw [heq]; simp⟩
  · exact ⟨" -> " ++ p, by rw [heq, String.append_assoc]⟩

/-- Counting distributes over string append. -/
theorem countChar_append (a b : String) (c : Char) :
    countChar (a ++ b) c = countChar a c + countChar b c := by
  simp only [countChar]
  rw [show (a ++ b).data = a.data ++ b.data from rfl, List.count_append]

/-- A single space holds no bracket characters. -/
theorem countChar_space {c : Char} (hc : c ≠ ' ') : countChar " " c = 0 := by
  simp [countChar, List.count_cons, hc]

theorem joinTrimmed_nil (v : String) : joinTrimmed v [] = v := rfl

theorem joinTrimmed_cons (v : String) (l : String) (cs : List String) :
    joinTrimmed v (l :: cs) = joinTrimmed (v ++ " " ++ strTrim l) cs := rfl

/-- The entry condition of the reassembly is exactly the negation of its
stop condition. -/
theorem unbalancedOpen_iff (v : String) : unbalancedOpen v = !balancedClose v := by
  by_cases h1 : countChar v lbrace ≤ countChar v rbrace <;>
    by_cases h2 : countChar v '[' ≤ countChar v ']' <;>
      · have e1 : decide (countChar v rbrace < countChar v lbrace)
            = !decide (countChar v lbrace ≤ countChar v rbrace) := by
          by_cases hx : countChar v lbrace ≤ countChar v rbrace <;>
            simp [hx, Nat.lt_iff_add_one_le] <;> omega
        have e2 : decide (countChar v ']' < countChar v '[')
            = !decide (countChar v '[' ≤ countChar v ']') := by
          by_cases hx : countChar v '[' ≤ countChar v ']' <;>
            simp [hx, Nat.lt_iff_add_one_le] <;> omega
        rw [unbalancedOpen, balancedClose, e1, e2]
        cases hb1 : decide (countChar v lbrace ≤ countChar v rbrace) <;>
          cases hb2 : decide (countChar v '[' ≤ countChar v ']') <;> rfl

/-- Counts of the joined value are the counts of the parts (for non-space
characters, unaffected by the single-space separators). -/
theorem countChar_joinTrimmed (cs : List String) :
    ∀ (v : String) (c : Char), c ≠ ' ' →
      countChar (joinTrimmed v cs) c
        = countChar v c + (cs.map (fun l => countChar (strTrim l) c)).sum := by
  induction cs with
  | nil => intro v c _; simp [joinTrimmed_nil]
  | cons l t ih =>
    intro v c hc
    rw [joinTrimmed_cons, ih _ c hc, countChar_append, countChar_append,
      countChar_space hc]
    simp only [List.map_cons, List.sum_cons]
    omega

/-- Behaviour of the continuation loop of extract_properties
(scanner/component.rs): starting from an unbalanced value, the loop splits
the remaining lines into a consumed part and a leftover; the reassembled
value joins the trimmed consumed lines with single spaces; it preserves the
non-space character counts of the parts; the loop stops because the counts
balanced, the block ended, or a header line was reached; and no proper
prefix of the consumed lines already balances the value. -/
theorem absorb_spec (rest : List String) :
    ∀ (v0 : String), balancedClose v0 = false →
    ∃ consumed leftover,
      rest = consumed ++ leftover
      ∧ absorb v0 rest = (joinTrimmed v0 consumed, leftover)
      ∧ (balancedClose (joinTrimmed v0 consumed) = true
          ∨ leftover = []
          ∨ ∃ l ls, leftover = l :: ls ∧ strStartsWith (strTrim l) "--- !u!" = true)
      ∧ (∀ pre, pre <+: consumed → pre ≠ consumed →
          balancedClose (joinTrimmed v0 pre) = false) := by
  induction rest with
  | nil =>
    intro v0 h0
    refine ⟨[], [], by simp, by simp [absorb, joinTrimmed_nil], Or.inr (Or.inl rfl), ?_⟩
    intro pre hp hne
    rw [List.prefix_nil] at hp
    exact absurd hp hne
  | cons l ls ih =>
    intro v0 h0
    by_cases hh : strStartsWith (strTrim l) "--- !u!" = true
    · refine ⟨[], l :: ls, by simp, ?_, Or.inr (Or.inr ⟨l, ls, rfl, hh⟩), ?_⟩
      · rw [absorb]
        simp [hh, joinTrimmed_nil]
      · intro pre hp hne
        rw [List.prefix_nil] at hp
        exact absurd hp hne
    · have hh' : strStartsWith (strTrim l) "--- !u!" = false := by simpa using hh
      by_cases hb : balancedClose (v0 ++ " " ++ strTrim l) = true
      · refine ⟨[l], ls, rfl, ?_, Or.inl ?_, ?_⟩
        · rw [absorb]
          simp [hh', hb, joinTrimmed_cons, joinTrimmed_nil]
        · rw [joinTrimmed_cons, joinTrimmed_nil]
          exact hb
        · intro pre hp hne
          cases pre with
          | nil => simpa [joinTrimmed_nil] using h0
          | cons a t =>
            rw [List.cons_prefix_cons] at hp
            obtain ⟨ha, ht⟩ := hp
            rw [List.prefix_nil] at ht
            subst ha
            subst ht
            exact absurd rfl hne
      · have hb' : balancedClose (v0 ++ " " ++ strTrim l) = false := by simpa using hb
        obtain ⟨cs, lo, hsplit, habs, hterm, hmin⟩ := ih (v0 ++ " " ++ strTrim l) hb'
        refine ⟨l :: cs, lo, by rw [List.cons_append, ← hsplit], ?_, ?_, ?_⟩
        · rw [absorb]
          simp only [hh', Bool.false_eq_true, if_false, hb, joinTrimmed_cons]
          exact habs
        · rw [joinTrimmed_cons]
          exact hterm
        · intro pre hp hne
          cases pre with
          | nil => simpa [joinTrimmed_nil] using h0
          | cons a t =>
            rw [List.cons_prefix_cons] at hp
            obtain ⟨ha, ht⟩ := hp
            subst ha
            have hne' : t ≠ cs := by
              intro hteq
              exact hne (by rw [hteq])
            rw [joinTrimmed_cons]
            exact hmin t ht hne'

/-- C6: whenever a key's value line opens more braces or brackets than it
closes, subsequent lines of the block are appended to the value joined by
single spaces until the cumulative open counts no longer exceed the close
counts (or the block or document ends, keeping the value as captured), and
the property loop records the reassembled value, whose bracket counts are
exactly those of the original multi-line text. -/
theorem multiline_value_reassembly (v0 : String) (rest : List String)
    (h : unbalancedOpen v0 = true) :
    (∃ consumed leftover,
      rest = consumed ++ leftover
      ∧ absorb v0 rest = (joinTrimmed v0 consumed, leftover)
      ∧ (∀ c : Char, c ≠ ' ' →
          countChar (joinTrimmed v0 consumed) c
            = countChar v0 c + (consumed.map (fun l => countChar (strTrim l) c)).sum)
      ∧ (balancedClose (joinTrimmed v0 consumed) = true
          ∨ leftover = []
          ∨ ∃ l ls, leftover = l :: ls ∧ strStartsWith (strTrim l) "--- !u!" = true)
      ∧ (∀ pre, pre <+: consumed → pre ≠ consumed →
          balancedClose (joinTrimmed v0 pre) = false))
    ∧ (∀ (cache : List (String × String)) (l key : String),
        propLine? l = some (key, v0) → key ∉ metadataProperties →
        extractPropsGo cache (l :: rest)
          = (key, resolveGuidInValue (absorb v0 rest).1 cache)
              :: extractPropsGo cache (absorb v0 rest).2) := by
  have h0 : balancedClose v0 = false := by
    rw [unbalancedOpen_iff] at h
    cases hbc : balancedClose v0
    · rfl
    · rw [hbc] at h
      exact absurd h (by simp)
  constructor
  · obtain ⟨cs, lo, h1, h2, h3, h4⟩ := absorb_spec rest v0 h0
    exact ⟨cs, lo, h1, h2, fun c hc => countChar_joinTrimmed cs v0 c hc, h3, h4⟩
  · intro cache l key hpl hmeta
    rw [extractPropsGo, hpl]
    simp only [if_neg hmeta, h, if_true]

/-- Witness for C6: a property value spanning three lines with nested braces
and brackets reassembles into one logical value with the original bracket
balance intact, leaving the following line unconsumed. -/
theorem multiline_value_reassembly_witness :
    unbalancedOpen "\x7bkeys: [" = true
    ∧ absorb "\x7bkeys: [" ["  \x7btime: 0\x7d,", "  \x7btime: 1\x7d]\x7d", "  m_Next: 1"]
      = ("\x7bkeys: [ \x7btime: 0\x7d, \x7btime: 1\x7d]\x7d", ["  m_Next: 1"])
    ∧ balancedClose "\x7bkeys: [ \x7btime: 0\x7d, \x7btime: 1\x7d]\x7d" = true
    ∧ (∃ consumed leftover,
        ["  \x7btime: 0\x7d,", "  \x7btime: 1\x7d]\x7d", "  m_Next: 1"]
          = consumed ++ leftover
        ∧ absorb "\x7bkeys: [" ["  \x7btime: 0\x7d,", "  \x7btime: 1\x7d]\x7d", "  m_Next: 1"]
            = (joinTrimmed "\x7bkeys: [" consumed, leftover)
        ∧ (∀ c : Char, c ≠ ' ' →
            countChar (joinTrimmed "\x7bkeys: [" consumed) c
              = countChar "\x7bkeys: [" c
                + (consumed.map (fun l => countChar (strTrim l) c)).sum)
        ∧ (balancedClose (joinTrimmed "\x7bkeys: [" consumed) = true
            ∨ leftover = []
            ∨ ∃ l ls, leftover = l :: ls ∧ strStartsWith (strTrim l) "--- !u!" = true)
        ∧ (∀ pre, pre <+: consumed → pre ≠ consumed →
            balancedClose (joinTrimmed "\x7bkeys: [" pre) = false)) := by
  refine ⟨by decide, by decide, by decide, ?_⟩
  exact (multiline_value_reassembly "\x7bkeys: ["
    ["  \x7btime: 0\x7d,", "  \x7btime: 1\x7d]\x7d", "  m_Next: 1"] (by decide)).1

/-- Every fuzzy score is at most 100 (the exact-match score). -/
theorem calculateFuzzyScore_le_100 (p t : String) : calculateFuzzyScore p t ≤ 100 := by
  rw [calculateFuzzyScore]
  split_ifs with h1 h2 h3 h4
  any_goals norm_num
  · have hc : ((p.data.filter (fun c => charContains t c)).length : ℚ) ≤ (p.length : ℚ) := by
      have := List.length_filter_le (fun c => charContains t c) p.data
      exact_mod_cast this
    have hn : (0 : ℚ) < (p.length : ℚ) := by
      obtain ⟨d⟩ := p
      have hd : d ≠ [] := by
        intro hd
        exact h4 (by rw [hd])
      have : 0 < d.length := List.length_pos.mpr hd
      exact_mod_cast this
    calc ((p.data.filter (fun c => charContains t c)).length : ℚ) / (p.length : ℚ) * 50
        ≤ 1 * 50 := by
          apply mul_le_mul_of_nonneg_right _ (by norm_num)
          exact (div_le_one hn).mpr hc
      _ ≤ 100 := by norm_num

/-- Results of a fuzzy, glob-free find_by_name search carry the lower-cased
substring-containment filter and the fuzzy score of their own name. -/
theorem mem_findByName_fuzzy {doc : List Line} {cache : List (String × String)}
    {pattern : String} (hng : hasGlobChars pattern = false) {r : FindResult}
    (hr : r ∈ findByName doc cache pattern true) :
    strContainsSub (lowerStr r.name) (lowerStr pattern) = true
    ∧ r.match_score = some (calculateFuzzyScore (lowerStr pattern) (lowerStr r.name)) := by
  rw [findByName] at hr
  simp only [if_true, hng, Bool.false_eq_true, if_false] at hr
  have hr2 := (List.mem_insertionSort scoreGe).mp hr
  rcases List.mem_append.mp hr2 with hm | hm
  · obtain ⟨go, _, heq⟩ := List.mem_filterMap.mp hm
    by_cases hcont : strContainsSub (lowerStr go.name) (lowerStr pattern) = true
    · rw [if_pos hcont] at heq
      injection heq with heq2
      subst heq2
      exact ⟨hcont, rfl⟩
    · rw [if_neg hcont] at heq
      exact Option.noConfusion heq
  · obtain ⟨pi, _, heq⟩ := List.mem_filterMap.mp hm
    by_cases hcont : strContainsSub (lowerStr pi.name) (lowerStr pattern) = true
    · rw [if_pos hcont] at heq
      injection heq with heq2
      subst heq2
      exact ⟨hcont, rfl⟩
    · rw [if_neg hcont] at heq
      exact Option.noConfusion heq

/-- C3: in fuzzy mode without glob characters, every returned result is
scored (case-insensitively) 100 for an exact match, 85 for a proper prefix,
70 for a mere substring, and otherwise the proportional character overlap
times 50; the list is sorted descending by score, an exact match always
ranks first, and on the Camera / MainCamera example the prefix match
outranks the substring-only match. -/
theorem fuzzy_scoring_spec (doc : List Line) (cache : List (String × String))
    (pattern : String) (hng : hasGlobChars pattern = false) :
    (∀ r ∈ findByName doc cache pattern true,
        strContainsSub (lowerStr r.name) (lowerStr pattern) = true
        ∧ r.match_score = some (calculateFuzzyScore (lowerStr pattern) (lowerStr r.name)))
    ∧ (∀ p t : String,
        (p = t → calculateFuzzyScore p t = 100)
        ∧ (p ≠ t → strStartsWith t p = true → calculateFuzzyScore p t = 85)
        ∧ (p ≠ t → strStartsWith t p = false → strContainsSub t p = true →
            calculateFuzzyScore p t = 70)
        ∧ (p ≠ t → strStartsWith t p = false → strContainsSub t p = false → p ≠ "" →
            calculateFuzzyScore p t
              = ((p.data.filter (fun c => charContains t c)).length : ℚ)
                  / (p.length : ℚ) * 50))
    ∧ List.Sorted scoreGe (findByName doc cache pattern true)
    ∧ (∀ r ∈ findByName doc cache pattern true,
        lowerStr r.name = lowerStr pattern →
        ∃ r0, (findByName doc cache pattern true).head? = some r0
          ∧ r0.match_score.getD 0 = 100)
    ∧ ((findByName camDoc [] "cam" true).map (fun r => (r.name, r.match_score))
        = [("Camera", some 85), ("MainCamera", some 70)]) := by
  refine ⟨fun r hr => mem_findByName_fuzzy hng hr, ?_, ?_, ?_, ?_⟩
  · intro p t
    refine ⟨?_, ?_, ?_, ?_⟩
    · intro h
      rw [calculateFuzzyScore, if_pos h]
    · intro h1 h2
      rw [calculateFuzzyScore, if_neg h1, if_pos h2]
    · intro h1 h2 h3
      rw [calculateFuzzyScore, if_neg h1, if_neg (by simp [h2]), if_pos h3]
    · intro h1 h2 h3 h4
      rw [calculateFuzzyScore, if_neg h1]
      rw [if_neg (by simp [h2]), if_neg (by simp [h3]), if_neg h4]
  · exact List.sorted_insertionSort scoreGe _
  · intro r hr hexact
    have hscore := (mem_findByName_fuzzy hng hr).2
    rw [hexact, calculateFuzzyScore, if_pos rfl] at hscore
    have hsorted : List.Sorted scoreGe (findByName doc cache pattern true) :=
      List.sorted_insertionSort scoreGe _
    cases hres : findByName doc cache pattern true with
    | nil =>
      rw [hres] at hr
      exact absurd hr (List.not_mem_nil r)
    | cons r0 tl =>
      refine ⟨r0, rfl, ?_⟩
      have hr0mem : r0 ∈ findByName doc cache pattern true := by
        rw [hres]
        exact List.mem_cons_self r0 tl
      have h0le : r0.match_score.getD 0 ≤ 100 := by
        have := (mem_findByName_fuzzy hng hr0mem).2
        rw [this]
        exact calculateFuzzyScore_le_100 _ _
      rw [hres] at hr hsorted
      rcases List.mem_cons.mp hr with heq | hmem
      · subst heq
        rw [hscore]
        rfl
      · have hge : scoreGe r0 r := List.rel_of_sorted_cons hsorted r hmem
        rw [scoreGe, hscore] at hge
        simp only [Option.getD_some] at hge
        exact le_antisymm h0le hge
  · norm_num [findByName, extractGameobjects, extractGameobjectsWith,
      extractGosFuel, matchGo, scanName,
      scanActive, extractPrefabInstances, prefabHeaderIds, camDoc,
      ComponentConfig.default, hasGlobChars, charContains, lowerStr, lowerChar,
      strContainsSub, listContainsSub, calculateFuzzyScore, strStartsWith,
      strTrim, isRustSpace, FindResult.fromGameObject, List.insertionSort,
      List.orderedInsert, scoreGe, cacheFind]
    all_goals decide

/-- Witness for C3: the pattern "cam" has no glob characters, and against
Camera and MainCamera the prefix match ranks first with score 85 over the
substring-only match at 70. -/
theorem fuzzy_scoring_spec_witness :
    hasGlobChars "cam" = false
    ∧ ((findByName camDoc [] "cam" true).map (fun r => (r.name, r.match_score))
        = [("Camera", some 85), ("MainCamera", some 70)]) :=
  ⟨by decide, (fuzzy_scoring_spec camDoc [] "cam" (by decide)).2.2.2.2⟩

/-! Lemmas for C1: ids listed by the extractors trace back to headers. -/

/-- Every GameObject produced by the fuel recursion has its file id on a
non-stripped header of the GameObject class. -/
theorem extractGosFuel_mem_header (k : Nat) :
    ∀ (fuel : Nat) (doc : List Line), ∀ go ∈ extractGosFuel k fuel doc,
    Line.header k go.file_id false ∈ doc := by
  intro fuel
  induction fuel with
  | zero =>
    intro doc go hgo
    rw [extractGosFuel] at hgo
    exact absurd hgo (List.not_mem_nil go)
  | succ n ih =>
    intro doc go hgo
    cases doc with
    | nil =>
      simp only [extractGosFuel] at hgo
      exact absurd hgo (List.not_mem_nil go)
    | cons l rest =>
      cases l
      case header c0 f0 s0 =>
        cases s0 with
        | true =>
          simp only [extractGosFuel] at hgo
          exact List.mem_cons_of_mem _ (ih rest go hgo)
        | false =>
          rw [extractGosFuel] at hgo
          by_cases hcond : c0 = k ∧ rest.head? = some (Line.typeLine "GameObject")
          · rw [if_pos hcond] at hgo
            cases hm : matchGo rest with
            | none =>
              rw [hm] at hgo
              exact List.mem_cons_of_mem _ (ih rest go hgo)
            | some vdr =>
              obtain ⟨v, d, r2⟩ := vdr
              rw [hm] at hgo
              rcases List.mem_cons.mp hgo with heq | hmem
              · subst heq
                rw [← hcond.1]
                exact List.mem_cons_self _ _
              · have hsub : r2 <:+ rest := matchGo_suffix hm
                exact List.mem_cons_of_mem _ (hsub.subset (ih r2 go hmem))
          · rw [if_neg hcond] at hgo
            exact List.mem_cons_of_mem _ (ih rest go hgo)
      all_goals
        simp only [extractGosFuel] at hgo
        exact List.mem_cons_of_mem _ (ih rest go hgo)

/-- Every extracted GameObject's file id comes from a non-stripped header of
the GameObject class. -/
theorem extractGameobjectsWith_mem_header {k : Nat} {doc : List Line}
    {go : GameObject} (hgo : go ∈ extractGameobjectsWith k doc) :
    Line.header k go.file_id false ∈ doc :=
  extractGosFuel_mem_header k doc.length doc go hgo

/-- Every extracted PrefabInstance's file id comes from a non-stripped
PrefabInstance header. -/
theorem extractPrefabInstances_mem_header {doc : List Line}
    {cache : List (String × String)} {pi : PrefabInstanceInfo}
    (h : pi ∈ extractPrefabInstances doc cache) :
    Line.header 1001 pi.file_id false ∈ doc := by
  obtain ⟨fid, hfid, heq⟩ := List.mem_filterMap.mp h
  cases hb : extractPrefabBlock doc fid with
  | none => rw [hb] at heq; exact Option.noConfusion heq
  | some b =>
    rw [hb] at heq
    injection heq with heq2
    have : pi.file_id = fid := by rw [← heq2]
    rw [this]
    exact mem_prefabHeaderIds.mp hfid

/-- File ids in a filterMap of search results trace to their source
element. -/
theorem mem_filterMap_fileId {α : Type} (nm : α → String) {l : List α}
    {f : α → Option FindResult} {r : FindResult}
    (hf : ∀ a r', f a = some r' → r'.file_id = nm a)
    (hr : r ∈ l.filterMap f) : ∃ a ∈ l, r.file_id = nm a := by
  obtain ⟨a, ha, heq⟩ := List.mem_filterMap.mp hr
  exact ⟨a, ha, hf a r heq⟩

/-- Every find_by_name result's file id is an extracted GameObject's or an
extracted PrefabInstance's. -/
theorem findByName_file_ids {doc : List Line} {cache : List (String × String)}
    {pattern : String} {fz : Bool} {r : FindResult}
    (hr : r ∈ findByName doc cache pattern fz) :
    (∃ go ∈ extractGameobjects doc, r.file_id = go.file_id)
    ∨ (∃ pi ∈ extractPrefabInstances doc cache, r.file_id = pi.file_id) := by
  rw [findByName] at hr
  cases fz with
  | true =>
    simp only [if_true] at hr
    have hr2 := (List.mem_insertionSort scoreGe).mp hr
    rcases List.mem_append.mp hr2 with hm | hm
    · exact Or.inl (mem_filterMap_fileId (fun go => go.file_id)
        (fun a r' heq => by
          split_ifs at heq <;>
            first
              | exact Option.noConfusion heq
              | (injection heq with h; subst h; rfl)) hm)
    · exact Or.inr (mem_filterMap_fileId (fun pi => pi.file_id)
        (fun a r' heq => by
          split_ifs at heq <;>
            first
              | exact Option.noConfusion heq
              | (injection heq with h; subst h; rfl)) hm)
  | false =>
    simp only [Bool.false_eq_true, if_false] at hr
    rcases List.mem_append.mp hr with hm | hm
    · exact Or.inl (mem_filterMap_fileId (fun go => go.file_id)
        (fun a r' heq => by
          split_ifs at heq <;>
            first
              | exact Option.noConfusion heq
              | (injection heq with h; subst h; rfl)) hm)
    · exact Or.inr (mem_filterMap_fileId (fun pi => pi.file_id)
        (fun a r' heq => by
          split_ifs at heq <;>
            first
              | exact Option.noConfusion heq
              | (injection heq with h; subst h; rfl)) hm)

/-- The per-page detail keeps the sliced GameObject's file id. -/
theorem pagDetail_file_id (doc : List Line) (cache : List (String × String))
    (cfg : ComponentConfig) (ip vb : Bool) (gwd : GoWithDepth) :
    (pagDetail doc cache cfg ip vb gwd).file_id = gwd.go.file_id := by
  rw [pagDetail]
  split_ifs <;> rfl

/-- Everything in the filtered set is an extracted GameObject. -/
theorem mem_pagFiltered_go {doc : List Line} {cfg : ComponentConfig}
    {opts : PaginationOptions} {gwd : GoWithDepth}
    (h : gwd ∈ pagFiltered doc cfg opts) : gwd.go ∈ extractGameobjects doc := by
  rw [pagFiltered] at h
  have hbd : gwd ∈ (goHierarchyInfos doc cfg).filterMap (fun info =>
      let depth := (info.transform_file_id.map
        (computeDepth (parentPairs (goHierarchyInfos doc cfg)) (effMaxDepth opts))).getD 0
      if effMaxDepth opts < 50 ∧ depth > effMaxDepth opts then none
      else some { go := info.go, depth := depth,
                  at_boundary := decide (effMaxDepth opts < 50 ∧ depth = effMaxDepth opts) }) := by
    cases hfc : opts.filter_component with
    | none =>
      rw [hfc] at h
      exact h
    | some ft =>
      rw [hfc] at h
      exact (List.mem_filter.mp h).1
  obtain ⟨info, hinfo, heq⟩ := List.mem_filterMap.mp hbd
  have hgo : gwd.go = info.go := by
    by_cases hc : effMaxDepth opts < 50 ∧
        ((info.transform_file_id.map
          (computeDepth (parentPairs (goHierarchyInfos doc cfg)) (effMaxDepth opts))).getD 0)
          > effMaxDepth opts
    · rw [if_pos hc] at heq
      exact Option.noConfusion heq
    · rw [if_neg hc] at heq
      injection heq with h2
      rw [← h2]
  obtain ⟨obj, hobj, hinfoeq⟩ := List.mem_map.mp hinfo
  rw [hgo, ← hinfoeq]
  exact hobj

/-- Every paginated result detail carries an extracted GameObject's file
id. -/
theorem paginated_file_ids {doc : List Line} {cache : List (String × String)}
    {cfg : ComponentConfig} {opts : PaginationOptions} {d : GameObjectDetail}
    (hd : d ∈ (inspectAllPaginated doc cache cfg opts).gameobjects) :
    ∃ go ∈ extractGameobjects doc, d.file_id = go.file_id := by
  have hun : (inspectAllPaginated doc cache cfg opts).gameobjects
      = (if (opts.cursor.getD 0) < (pagFiltered doc cfg opts).length then
          ((pagFiltered doc cfg opts).drop (opts.cursor.getD 0)).take
            (min ((opts.cursor.getD 0) + effPageSize opts)
              (pagFiltered doc cfg opts).length - opts.cursor.getD 0)
        else []).map (pagDetail doc cache cfg (opts.include_properties.getD false)
          (opts.verbose.getD false)) := rfl
  rw [hun] at hd
  obtain ⟨gwd, hgwd, heq⟩ := List.mem_map.mp hd
  have hmem : gwd ∈ pagFiltered doc cfg opts := by
    by_cases hlt : (opts.cursor.getD 0) < (pagFiltered doc cfg opts).length
    · rw [if_pos hlt] at hgwd
      exact List.drop_subset _ _ (List.take_subset _ _ hgwd)
    · rw [if_neg hlt] at hgwd
      exact absurd hgwd (List.not_mem_nil gwd)
  refine ⟨gwd.go, mem_pagFiltered_go hmem, ?_⟩
  rw [← heq, pagDetail_file_id]

/-- Every inspect_all detail carries an extracted GameObject's file id. -/
theorem inspectAll_file_ids {doc : List Line} {cache : List (String × String)}
    {cfg : ComponentConfig} {ip vb : Bool} {d : GameObjectDetail}
    (hd : d ∈ (inspectAll doc cache cfg ip vb).gameobjects) :
    ∃ go ∈ extractGameobjects doc, d.file_id = go.file_id := by
  rw [inspectAll] at hd
  obtain ⟨obj, hobj, heq⟩ := List.mem_map.mp hd
  refine ⟨obj, hobj, ?_⟩
  rw [← heq]
  split_ifs <;> rfl

/-- A header line opens a block in parse_all_blocks whose body is the run of
lines up to the next header. -/
theorem mem_parseAllBlocks_of_header :
    ∀ (n : Nat) (doc pre post : List Line) (c : Nat) (f : String) (s : Bool),
    doc.length ≤ n → doc = pre ++ Line.header c f s :: post →
    (⟨c, f, post.takeWhile (fun x => !isHeader x)⟩ : RawBlock) ∈ parseAllBlocks doc := by
  intro n
  induction n with
  | zero =>
    intro doc pre post c f s hlen hdoc
    subst hdoc
    simp at hlen
  | succ n ih =>
    intro doc pre post c f s hlen hdoc
    cases pre with
    | nil =>
      subst hdoc
      simp only [List.nil_append]
      rw [parseAllBlocks]
      exact List.mem_cons_self _ _
    | cons l pre2 =>
      have hdoc2 : doc = l :: (pre2 ++ Line.header c f s :: post) := by
        rw [hdoc]
        rfl
      subst hdoc2
      have hlen2 : (pre2 ++ Line.header c f s :: post).length ≤ n := by
        simp only [List.length_cons] at hlen
        omega
      cases l
      case header c0 f0 s0 =>
        rw [parseAllBlocks]
        apply List.mem_cons_of_mem
        rw [List.dropWhile_append]
        by_cases hemp : ((pre2.dropWhile (fun x => !isHeader x)).isEmpty) = true
        · rw [if_pos hemp]
          rw [show (Line.header c f s :: post).dropWhile (fun x => !isHeader x)
              = Line.header c f s :: post from by rw [List.dropWhile_cons_of_neg (by simp [isHeader])]]
          exact ih _ [] post c f s (by
            simp only [List.length_append, List.length_cons, List.nil_append] at hlen2 ⊢
            omega) rfl
        · rw [if_neg hemp]
          refine ih _ (pre2.dropWhile (fun x => !isHeader x)) post c f s ?_ rfl
          have hle := (List.dropWhile_sublist (l := pre2) (fun x => !isHeader x)).length_le
          simp only [List.length_append, List.length_cons] at hlen2 ⊢
          omega
      all_goals
        simp only [parseAllBlocks]
        exact ih _ pre2 post c f s hlen2 rfl

/-- C1: a block whose header carries the stripped marker never appears in
the container listing of GameObject extraction, hence not in find_by_name,
inspect_all, or paginated results, while the all-blocks listing still
records its object identifier, type identifier and body.  Uniqueness of the
identifier within the document (every header carrying it is the stripped
one) is the document invariant of the spec. -/
theorem stripped_exclusion_spec (cache : List (String × String))
    (cfg : ComponentConfig) (pre post : List Line) (c : Nat) (f : String)
    (huniq : ∀ c' s', Line.header c' f s' ∈ pre ++ Line.header c f true :: post →
      s' = true) :
    (f ∉ (extractGameobjects (pre ++ Line.header c f true :: post)).map
        (fun g => g.file_id))
    ∧ (∀ pattern fz,
        f ∉ (findByName (pre ++ Line.header c f true :: post) cache pattern fz).map
          (fun r => r.file_id))
    ∧ (∀ ip vb,
        f ∉ (inspectAll (pre ++ Line.header c f true :: post) cache cfg ip vb).gameobjects.map
          (fun d => d.file_id))
    ∧ (∀ opts,
        f ∉ (inspectAllPaginated (pre ++ Line.header c f true :: post) cache cfg opts).gameobjects.map
          (fun d => d.file_id))
    ∧ (⟨c, f, post.takeWhile (fun x => !isHeader x)⟩ : RawBlock)
        ∈ parseAllBlocks (pre ++ Line.header c f true :: post) := by
  have hgo : ∀ go ∈ extractGameobjects (pre ++ Line.header c f true :: post),
      go.file_id ≠ f := by
    intro go hmem heq
    have hh := extractGameobjectsWith_mem_header hmem
    rw [heq] at hh
    exact Bool.noConfusion (huniq _ _ hh)
  have hpi : ∀ pi ∈ extractPrefabInstances (pre ++ Line.header c f true :: post) cache,
      pi.file_id ≠ f := by
    intro pi hmem heq
    have hh := extractPrefabInstances_mem_header hmem
    rw [heq] at hh
    exact Bool.noConfusion (huniq _ _ hh)
  refine ⟨?_, ?_, ?_, ?_, ?_⟩
  · intro hmem
    obtain ⟨go, hg, heq⟩ := List.mem_map.mp hmem
    exact hgo go hg heq
  · intro pattern fz hmem
    obtain ⟨r, hr, heq⟩ := List.mem_map.mp hmem
    rcases findByName_file_ids hr with ⟨go, hg, hid⟩ | ⟨pi, hp, hid⟩
    · exact hgo go hg (by rw [← hid, heq])
    · exact hpi pi hp (by rw [← hid, heq])
  · intro ip vb hmem
    obtain ⟨d, hd, heq⟩ := List.mem_map.mp hmem
    obtain ⟨go, hg, hid⟩ := inspectAll_file_ids hd
    exact hgo go hg (by rw [← hid, heq])
  · intro opts hmem
    obtain ⟨d, hd, heq⟩ := List.mem_map.mp hmem
    obtain ⟨go, hg, hid⟩ := paginated_file_ids hd
    exact hgo go hg (by rw [← hid, heq])
  · exact mem_parseAllBlocks_of_header
      (pre ++ Line.header c f true :: post).length _ pre post c f true le_rfl rfl

/-- Witness for C1 on a concrete document: the stripped id 500 is missing
from the GameObject listing yet its block is in the all-blocks listing. -/
theorem stripped_exclusion_spec_witness :
    ("500" ∉ (extractGameobjects
        ([] ++ Line.header 1 "500" true :: strippedExPost)).map (fun g => g.file_id))
    ∧ (⟨1, "500", strippedExPost.takeWhile (fun x => !isHeader x)⟩ : RawBlock)
        ∈ parseAllBlocks ([] ++ Line.header 1 "500" true :: strippedExPost) := by
  have h := stripped_exclusion_spec [] ComponentConfig.default [] strippedExPost 1 "500"
    (by
      intro c' s' hmem
      simp [strippedExPost] at hmem
      aesop)
  exact ⟨h.1, h.2.2.2.2⟩

/-- Counterexample for C4: the identifier 700000 resolves to a block whose
type (PrefabInstance, class 1001) is not the container type, yet inspect
returns a valid PrefabInstance output with no error, where the claim
predicts a structured wrong-kind error. -/
theorem inspect_errors_counterexample :
    findBlockForInspect pagedPrefabDoc "700000" = some (1001, false)
    ∧ inspect pagedPrefabDoc [] ComponentConfig.default "700000" false
        = InspectResult.prefabOutput
            ⟨"MyEnemy", "700000", "a1b2c3d4e5f6789012345678abcdef12", none, 1⟩ none
    ∧ (inspect pagedPrefabDoc [] ComponentConfig.default "700000" false).isError
        = false := by
  refine ⟨rfl, rfl, rfl⟩

/-- C4 (amended): a non-numeric identifier with more than one name match
yields the structured ambiguity error enumerating every candidate file id;
an all-digits identifier that is neither a prefab instance nor an extracted
GameObject yields, from the raw block fallback, the structured stripped
error when the matched block is a stripped container and the structured
wrong-kind error otherwise; all three are error values embedded in the
result, never an absent result. -/
theorem inspect_errors_amended (doc : List Line) (cache : List (String × String))
    (cfg : ComponentConfig) (identifier : String) (ip : Bool) :
    ((identifier.data.all Char.isDigit = false) →
      1 < (findByName doc cache identifier true).length →
      inspect doc cache cfg identifier ip
          = InspectResult.errMultiple identifier
              ((findByName doc cache identifier true).map (fun m => m.file_id))
        ∧ (inspect doc cache cfg identifier ip).isError = true)
    ∧ ((identifier.data.all Char.isDigit = true) →
      (extractPrefabInstances doc cache).find? (fun p => p.file_id == identifier) = none →
      (extractGameobjects doc).find? (fun o => o.file_id == identifier) = none →
      ∀ c s, findBlockForInspect doc identifier = some (c, s) →
        ((c = 1 ∧ s = true) →
            inspect doc cache cfg identifier ip = InspectResult.errStripped identifier)
        ∧ (¬(c = 1 ∧ s = true) →
            inspect doc cache cfg identifier ip
              = InspectResult.errWrongKind identifier (classIdToName c) c)
        ∧ (inspect doc cache cfg identifier ip).isError = true) := by
  constructor
  · intro hnd hlen
    have he : inspect doc cache cfg identifier ip
        = InspectResult.errMultiple identifier
            ((findByName doc cache identifier true).map (fun m => m.file_id)) := by
      rw [inspect, if_neg (by simp [hnd])]
      rw [if_pos hlen]
    exact ⟨he, by rw [he]; rfl⟩
  · intro hd hp hg c s hf
    have hbase : inspect doc cache cfg identifier ip
        = (if c = 1 ∧ s = true then InspectResult.errStripped identifier
           else InspectResult.errWrongKind identifier (classIdToName c) c) := by
      rw [inspect, if_pos hd]
      rw [inspectWithTarget]
      simp only [hp, hg, hf]
    refine ⟨fun hcs => by rw [hbase, if_pos hcs],
      fun hcs => by rw [hbase, if_neg hcs], ?_⟩
    by_cases hcs : c = 1 ∧ s = true
    · rw [hbase, if_pos hcs]
      rfl
    · rw [hbase, if_neg hcs]
      rfl

/-- Witness for C4 (amended) on concrete documents: the ambiguous name cam
yields the candidate-enumerating error, a stripped container id yields the
stripped error, and a Transform component id yields the wrong-kind error. -/
theorem inspect_errors_amended_witness :
    inspect camDoc [] ComponentConfig.default "cam" false
      = InspectResult.errMultiple "cam"
          ((findByName camDoc [] "cam" true).map (fun m => m.file_id))
    ∧ inspect (Line.header 1 "500" true :: strippedExPost) [] ComponentConfig.default
        "500" false = InspectResult.errStripped "500"
    ∧ inspect wrongKindDoc [] ComponentConfig.default "42" false
      = InspectResult.errWrongKind "42" (classIdToName 4) 4 := by
  refine ⟨?_, ?_, ?_⟩
  · exact ((inspect_errors_amended camDoc [] ComponentConfig.default "cam" false).1
      (by decide)
      (by norm_num [findByName, extractGameobjects, extractGameobjectsWith,
        extractGosFuel, matchGo, scanName, scanActive, extractPrefabInstances,
        prefabHeaderIds, camDoc, ComponentConfig.default, hasGlobChars,
        charContains, lowerStr, lowerChar, strContainsSub, listContainsSub,
        calculateFuzzyScore, strStartsWith, strTrim, isRustSpace,
        FindResult.fromGameObject, List.insertionSort, List.orderedInsert,
        scoreGe, cacheFind] <;> decide)).1
  · exact (((inspect_errors_amended (Line.header 1 "500" true :: strippedExPost) []
      ComponentConfig.default "500" false).2 (by decide) rfl rfl 1 true rfl).1
      (by decide))
  · exact (((inspect_errors_amended wrongKindDoc [] ComponentConfig.default
      "42" false).2 (by decide) rfl rfl 4 false rfl).2.1 (by decide))

/-- Rendered modification lists round-trip through extract_modifications:
on the canonical four-line shape, each target line recovers its own
(trim-stable) propertyPath and value. -/
theorem extractModifications_renderMods : ∀ (ms : List PrefabModification),
    (∀ m ∈ ms, strTrim m.property_path = m.property_path ∧ strTrim m.value = m.value) →
    extractModifications (renderMods ms) = ms
  | [], _ => rfl
  | m :: tl, hts => by
    have ih := extractModifications_renderMods tl
      (fun x hx => hts x (List.mem_cons_of_mem m hx))
    have hm := hts m (List.mem_cons_self m tl)
    cases tl with
    | nil =>
      show (⟨m.target_file_id, m.target_guid, strTrim m.property_path,
          strTrim m.value⟩ : PrefabModification) :: [] = [m]
      rw [hm.1, hm.2]
    | cons m2 tl2 =>
      show (⟨m.target_file_id, m.target_guid, strTrim m.property_path,
          strTrim m.value⟩ : PrefabModification)
          :: extractModifications (renderMods (m2 :: tl2)) = m :: m2 :: tl2
      rw [hm.1, hm.2, ih]

/-- On the canonical rendering, extract_name_from_modifications returns the
value of the first entry whose property path merely starts with m_Name and
whose value is non-empty. -/
theorem extractNameFromMods_renderMods : ∀ (ms : List PrefabModification),
    (∀ m ∈ ms, strTrim m.value = m.value) →
    extractNameFromMods (renderMods ms)
      = (ms.find? (fun m => strStartsWith m.property_path "m_Name"
            && m.value != "")).map (fun m => m.value)
  | [], _ => rfl
  | m :: tl, hts => by
    have ih := extractNameFromMods_renderMods tl
      (fun x hx => hts x (List.mem_cons_of_mem m hx))
    have hvtrim : strTrim m.value = m.value := hts m (List.mem_cons_self m tl)
    show (if strStartsWith m.property_path "m_Name" = true then
        (if strTrim m.value ≠ "" then some (strTrim m.value)
         else extractNameFromMods
            (Line.valueLine m.value :: Line.objRefLine :: renderMods tl))
      else extractNameFromMods
          (Line.valueLine m.value :: Line.objRefLine :: renderMods tl)) = _
    by_cases hp : strStartsWith m.property_path "m_Name" = true
    · rw [if_pos hp]
      by_cases hv : m.value = ""
      · rw [if_neg (fun h => h (by rw [hvtrim, hv]))]
        show extractNameFromMods (renderMods tl) = _
        rw [ih, List.find?_cons_of_neg _ (by simp [hv])]
      · rw [if_pos (by rw [hvtrim]; exact hv)]
        rw [hvtrim, List.find?_cons_of_pos _ (by simp [hp, hv])]
        rfl
    · rw [if_neg hp]
      show extractNameFromMods (renderMods tl) = _
      rw [ih, List.find?_cons_of_neg _ (by simp [hp])]

/-- Counterexample for C8: the only modification entry of the instance has
property path m_NameXYZ, which is not the display-name field m_Name, so the
claim predicts the unnamed placeholder; the program instead reports the
display name Foo, because the source matches the path by substring. -/
theorem prefab_display_name_counterexample :
    (extractPrefabInstances c8Doc []).map (fun p => p.name) = ["Foo"]
    ∧ (extractPrefabBlock c8Doc "800000").map
        (fun b => (extractModifications b).map (fun m => m.property_path))
        = some ["m_NameXYZ"]
    ∧ (extractPrefabBlock c8Doc "800000").map
        (fun b => claimDisplayName (extractModifications b)) = some "<unnamed>" := by
  refine ⟨rfl, rfl, rfl⟩

/-- C8 (amended): every prefab instance's display name comes from
extract_name_from_modifications over its block (with the unnamed
placeholder when that yields nothing); on a canonically rendered
modification list, whose entries extract_modifications recovers exactly,
that name is the value of the first entry whose property path starts with
m_Name (a substring test, not equality with the display-name field) and
whose value is non-empty. -/
theorem prefab_display_name_amended (ms : List PrefabModification)
    (hts : ∀ m ∈ ms, strTrim m.property_path = m.property_path
      ∧ strTrim m.value = m.value) :
    extractModifications (renderMods ms) = ms
    ∧ extractNameFromMods (renderMods ms)
        = (ms.find? (fun m => strStartsWith m.property_path "m_Name"
              && m.value != "")).map (fun m => m.value)
    ∧ (∀ doc cache pi, pi ∈ extractPrefabInstances doc cache →
        ∃ block, extractPrefabBlock doc pi.file_id = some block
          ∧ pi.name = (extractNameFromMods block).getD "<unnamed>") := by
  refine ⟨extractModifications_renderMods ms hts,
    extractNameFromMods_renderMods ms (fun m hm => (hts m hm).2), ?_⟩
  intro doc cache pi hpi
  rw [extractPrefabInstances] at hpi
  obtain ⟨fid, hfid, heq⟩ := List.mem_filterMap.mp hpi
  obtain ⟨block, hb, hrec⟩ := Option.map_eq_some'.mp heq
  refine ⟨block, ?_, ?_⟩
  · rw [← hrec]
    exact hb
  · rw [← hrec]

/-- Witness for C8 (amended) at a concrete modification list and document:
the entry with path m_NameXYZ and value Foo supplies the name Foo, and the
prefab instance of the concrete document carries exactly that name through
its block. -/
theorem prefab_display_name_amended_witness :
    extractNameFromMods
        (renderMods [⟨"100000", none, "m_NameXYZ", "Foo"⟩]) = some "Foo"
    ∧ extractModifications
        (renderMods [⟨"100000", none, "m_NameXYZ", "Foo"⟩])
        = [⟨"100000", none, "m_NameXYZ", "Foo"⟩]
    ∧ ∃ block, extractPrefabBlock c8Doc "800000" = some block
        ∧ (⟨"Foo", "800000", "a1b2c3d4e5f6789012345678abcdef12", none, 1⟩
            : PrefabInstanceInfo).name
          = (extractNameFromMods block).getD "<unnamed>" := by
  have h := prefab_display_name_amended [⟨"100000", none, "m_NameXYZ", "Foo"⟩]
    (by decide)
  refine ⟨?_, h.1, ?_⟩
  · rw [h.2.1]
    rfl
  · have h2 := h.2.2 c8Doc []
      ⟨"Foo", "800000", "a1b2c3d4e5f6789012345678abcdef12", none, 1⟩ (by decide)
    exact h2

end UnityScan
